import Mathlib

/-!
# Node Inventory & Scoped Configuration Store — verification

Shallow embedding of the inventory subsystem of the cluster manager:
the YAML document tree, the `Node` host model with its field validators
(`src/cluster_manager/models/node.py`), and the `InventoryManager`
operations (`src/cluster_manager/inventory.py`).

YAML mappings are modelled as association lists with Python-dict
semantics: lookup returns the first binding, assignment replaces the
first binding or appends, deletion removes the first binding.  A mapping
obtained by parsing a YAML file never has duplicate keys; theorems that
need this carry it as a `Nodup` hypothesis.

IP addresses: pydantic's `IPvAnyAddress` parses the textual address and
`str()` prints it back.  A constructed `Node` always holds a parsed
address, whose textual form is canonical, so the model keeps the
canonical string and treats parsing of a valid string as the identity.
-/

namespace Kubani

/-- In-memory YAML tree, as produced by the ruamel loader. -/
inductive Yaml where
  | str (s : String)
  | int (n : Int)
  | bool (b : Bool)
  | null
  | seq (items : List Yaml)
  | map (entries : List (String × Yaml))

/-- Python dict lookup: first binding of the key. -/
def alistLookup (l : List (String × α)) (k : String) : Option α :=
  match l with
  | [] => none
  | (k₀, v₀) :: rest => if k₀ = k then some v₀ else alistLookup rest k

/-- Python dict assignment `d[k] = v`: replace the first binding of `k`,
or append a new binding when `k` is absent. -/
def alistInsert (l : List (String × α)) (k : String) (v : α) : List (String × α) :=
  match l with
  | [] => [(k, v)]
  | (k₀, v₀) :: rest =>
    if k₀ = k then (k₀, v) :: rest else (k₀, v₀) :: alistInsert rest k v

/-- Python dict deletion `del d[k]`: remove the first binding of `k`. -/
def alistErase (l : List (String × α)) (k : String) : List (String × α) :=
  match l with
  | [] => []
  | (k₀, v₀) :: rest =>
    if k₀ = k then rest else (k₀, v₀) :: alistErase rest k

/-- Python `k in d`. -/
def alistContains (l : List (String × α)) (k : String) : Bool :=
  (alistLookup l k).isSome

/-- The keys of a mapping, in order. -/
def alistKeys (l : List (String × α)) : List String :=
  l.map Prod.fst

/-! ## Host model field validators (`models/node.py`) -/

/-- One character of an RFC 1123 label: ASCII alphanumeric or hyphen. -/
def isLabelChar (c : Char) : Bool :=
  c.isAlpha || c.isDigit || c == '-'

/-- `str.split(sep)` on a character list for a one-character separator
(the behavior of splitting `"a.b"` into `["a", "b"]`, keeping empty
pieces). -/
def splitOnChar (sep : Char) : List Char → List (List Char)
  | [] => [[]]
  | c :: rest =>
    if c = sep then [] :: splitOnChar sep rest
    else
      match splitOnChar sep rest with
      | [] => [[c]]
      | p :: ps => (c :: p) :: ps

/-- Splitting on the two-character separator `::` (for IPv6 forms),
with the same keep-empty-pieces semantics. -/
def splitDoubleColon : List Char → List (List Char)
  | [] => [[]]
  | [c] => [[c]]
  | c₁ :: c₂ :: rest =>
    if c₁ = ':' && c₂ = ':' then [] :: splitDoubleColon rest
    else
      match splitDoubleColon (c₂ :: rest) with
      | [] => [[c₁]]
      | p :: ps => (c₁ :: p) :: ps

/-- One dot-separated label of a hostname: nonempty, label characters
only, and neither starting nor ending with a hyphen.  Mirrors the group
`[a-z0-9]([-a-z0-9]*[a-z0-9])?` of the hostname regex (case-insensitive). -/
def validLabel (cs : List Char) : Bool :=
  match cs with
  | [] => false
  | c :: _ =>
    (c.isAlpha || c.isDigit) && cs.all isLabelChar &&
      ((cs.getLast!).isAlpha || (cs.getLast!).isDigit)

/-- `Node.validate_hostname`: nonempty, at most 253 characters, and a
dot-separated sequence of RFC 1123 labels. -/
def validHostname (s : String) : Bool :=
  s ≠ "" && s.toList.length ≤ 253 && (splitOnChar '.' s.toList).all validLabel

/-- One decimal octet of an IPv4 address: 1–3 digits, no leading zero
(except "0" itself), value at most 255. -/
def validOctet (cs : List Char) : Bool :=
  cs ≠ [] && cs.length ≤ 3 && cs.all Char.isDigit &&
    (cs.head? ≠ some '0' || cs.length == 1) &&
    (cs.foldl (fun acc c => acc * 10 + (c.toNat - 48)) 0) ≤ 255

/-- IPv4 address on a character list: four dot-separated octets. -/
def isValidIPv4Chars (cs : List Char) : Bool :=
  let parts := splitOnChar '.' cs
  parts.length == 4 && parts.all validOctet

/-- Textual IPv4 address. -/
def isValidIPv4 (s : String) : Bool :=
  isValidIPv4Chars s.toList

/-- One hexadecimal group of an IPv6 address: 1–4 hex digits. -/
def validHexGroup (cs : List Char) : Bool :=
  cs ≠ [] && cs.length ≤ 4 &&
    cs.all fun c => c.isDigit || ('a' ≤ c && c ≤ 'f') || ('A' ≤ c && c ≤ 'F')

/-- Groups of a non-compressed side of an IPv6 address, last group
possibly an embedded IPv4 address (counting as two groups). -/
def ipv6GroupCount (parts : List (List Char)) : Option Nat :=
  match parts with
  | [] => some 0
  | [p] =>
    if validHexGroup p then some 1
    else if isValidIPv4Chars p then some 2
    else none
  | p :: rest =>
    if validHexGroup p then (ipv6GroupCount rest).map (· + 1)
    else none

/-- Textual IPv6 address: eight hex groups, or a single `::` compressing
one or more zero groups, with an optional embedded IPv4 tail. -/
def isValidIPv6 (s : String) : Bool :=
  match splitDoubleColon s.toList with
  | [whole] =>
    (match ipv6GroupCount (splitOnChar ':' whole) with
     | some n => n == 8
     | none => false)
  | [pre, post] =>
    let preParts := if pre = [] then [] else splitOnChar ':' pre
    let postParts := if post = [] then [] else splitOnChar ':' post
    (match ipv6GroupCount preParts, ipv6GroupCount postParts with
     | some a, some b => a + b ≤ 7
     | _, _ => false)
  | _ => false

/-- pydantic `IPvAnyAddress`: IPv4 or IPv6 textual address. -/
def isValidIP (s : String) : Bool :=
  isValidIPv4 s || isValidIPv6 s

/-- `NodeTaint.validate_effect` allowed values. -/
def validEffect (s : String) : Bool :=
  s == "NoSchedule" || s == "PreferNoSchedule" || s == "NoExecute"

/-- `Node.validate_role` allowed values. -/
def validRole (s : String) : Bool :=
  s == "control-plane" || s == "worker"

/-! ## Host model (`models/node.py`) -/

/-- `NodeTaint`: a Kubernetes node taint. -/
structure NodeTaint where
  key : String
  value : String
  effect : String
  deriving DecidableEq, Repr

/-- A constructed `NodeTaint` always has a valid effect
(`validate_effect` runs at construction). -/
def NodeTaint.wellFormed (t : NodeTaint) : Bool :=
  validEffect t.effect

/-- `Node`: the typed host model.  `tailscale_ip` holds the canonical
textual form of the parsed `IPvAnyAddress`. -/
structure Node where
  hostname : String
  ansible_host : String
  tailscale_ip : String
  role : String
  reserved_cpu : Option String
  reserved_memory : Option String
  gpu : Bool
  node_labels : List (String × String)
  node_taints : List NodeTaint
  deriving DecidableEq, Repr

/-- The field validators that pydantic runs when a `Node` is
constructed: a `Node` object existing in the Python program always
satisfies these. -/
def Node.wellFormed (n : Node) : Bool :=
  validHostname n.hostname && n.ansible_host ≠ "" && isValidIP n.tailscale_ip &&
    validRole n.role && n.node_taints.all NodeTaint.wellFormed

/-- Serialization of one taint inside `to_inventory_dict`. -/
def taintToYaml (t : NodeTaint) : Yaml :=
  .map [("key", .str t.key), ("value", .str t.value), ("effect", .str t.effect)]

/-- Serialization of the `node_labels` mapping. -/
def labelsToYaml (l : List (String × String)) : Yaml :=
  .map (l.map fun kv => (kv.1, Yaml.str kv.2))

/-- `Node.to_inventory_dict`: `ansible_host` and `tailscale_ip` always;
`reserved_cpu` / `reserved_memory` only when truthy (neither `None` nor
the empty string), `gpu` only when true, `node_labels` / `node_taints`
only when nonempty.  The `role` field is never written. -/
def Node.to_inventory_dict (n : Node) : List (String × Yaml) :=
  ("ansible_host", Yaml.str n.ansible_host) ::
  ("tailscale_ip", Yaml.str n.tailscale_ip) ::
  ((match n.reserved_cpu with
    | some s => if s = "" then [] else [("reserved_cpu", Yaml.str s)]
    | none => []) ++
   (match n.reserved_memory with
    | some s => if s = "" then [] else [("reserved_memory", Yaml.str s)]
    | none => []) ++
   (if n.gpu then [("gpu", Yaml.bool true)] else []) ++
   (if n.node_labels.isEmpty then [] else [("node_labels", labelsToYaml n.node_labels)]) ++
   (if n.node_taints.isEmpty then []
    else [("node_taints", Yaml.seq (n.node_taints.map taintToYaml))]))

/-- `NodeTaint(**t)`: the entry must be a mapping providing string
`key`, `value` and `effect`, with a valid effect. -/
def parseTaint (y : Yaml) : Except String NodeTaint :=
  match y with
  | .map m =>
    match alistLookup m "key", alistLookup m "value", alistLookup m "effect" with
    | some (.str k), some (.str v), some (.str e) =>
      if validEffect e then .ok ⟨k, v, e⟩
      else .error ("effect must be one of the allowed values, got " ++ e)
    | _, _, _ => .error "taint entry must provide string key, value and effect"
  | _ => .error "taint entry must be a mapping"

/-- The `node_taints` list comprehension: parse taints in order,
failing on the first invalid entry. -/
def parseTaints : List Yaml → Except String (List NodeTaint)
  | [] => .ok []
  | y :: rest => do
    let t ← parseTaint y
    let ts ← parseTaints rest
    pure (t :: ts)

/-- `node_labels` must be a mapping of strings to strings. -/
def parseLabels : List (String × Yaml) → Option (List (String × String))
  | [] => some []
  | (k, .str v) :: rest => (parseLabels rest).map (fun l => (k, v) :: l)
  | _ => none

/-- `data[field]` for the two required string fields: `KeyError` when
absent, a pydantic type error when not a string. -/
def readStrField (data : List (String × Yaml)) (field : String) : Except String String :=
  match alistLookup data field with
  | some (.str s) => .ok s
  | some _ => .error (field ++ " must be a string")
  | none => .error ("KeyError: " ++ field)

/-- `data.get("role", "worker")`. -/
def readRole (data : List (String × Yaml)) : Except String String :=
  match alistLookup data "role" with
  | none => .ok "worker"
  | some (.str s) => .ok s
  | some _ => .error "role must be a string"

/-- `data.get(field)` for the two optional string fields. -/
def readOptStr (data : List (String × Yaml)) (field : String) :
    Except String (Option String) :=
  match alistLookup data field with
  | none => .ok none
  | some .null => .ok none
  | some (.str s) => .ok (some s)
  | some _ => .error (field ++ " must be a string")

/-- `data.get("gpu", False)`. -/
def readGpu (data : List (String × Yaml)) : Except String Bool :=
  match alistLookup data "gpu" with
  | none => .ok false
  | some (.bool b) => .ok b
  | some _ => .error "gpu must be a boolean"

/-- `data.get("node_labels", dict())`. -/
def readLabels (data : List (String × Yaml)) : Except String (List (String × String)) :=
  match alistLookup data "node_labels" with
  | none => .ok []
  | some (.map es) =>
    match parseLabels es with
    | some l => .ok l
    | none => .error "node_labels must be a mapping of strings"
  | some _ => .error "node_labels must be a mapping"

/-- The taint list comprehension guarded by the membership test. -/
def readTaints (data : List (String × Yaml)) : Except String (List NodeTaint) :=
  match alistLookup data "node_taints" with
  | none => .ok []
  | some (.seq items) => parseTaints items
  | some _ => .error "node_taints must be a list"

/-- The pydantic construction of a `Node`: the field validators of
`models/node.py` run, and the object is produced only when all pass. -/
def mkNode (hostname ansible_host tailscale_ip role : String)
    (reserved_cpu reserved_memory : Option String) (gpu : Bool)
    (node_labels : List (String × String)) (node_taints : List NodeTaint) :
    Except String Node :=
  if validHostname hostname then
    if ansible_host ≠ "" then
      if isValidIP tailscale_ip then
        if validRole role then
          .ok ⟨hostname, ansible_host, tailscale_ip, role, reserved_cpu,
               reserved_memory, gpu, node_labels, node_taints⟩
        else .error ("role must be control-plane or worker, got " ++ role)
      else .error ("invalid tailscale_ip " ++ tailscale_ip)
    else .error "ansible_host cannot be empty"
  else .error ("invalid hostname " ++ hostname)

/-- `Node.from_inventory_dict`: parse the taints first (as the Python
list comprehension does), read the fields with their defaults
(`role = worker`, `gpu = false`, absent optionals to `None` / empty),
then run the construction-time validators. -/
def Node.from_inventory_dict (hostname : String) (data : List (String × Yaml)) :
    Except String Node := do
  let taints ← readTaints data
  let ansible_host ← readStrField data "ansible_host"
  let tailscale_ip ← readStrField data "tailscale_ip"
  let role ← readRole data
  let reserved_cpu ← readOptStr data "reserved_cpu"
  let reserved_memory ← readOptStr data "reserved_memory"
  let gpu ← readGpu data
  let node_labels ← readLabels data
  mkNode hostname ansible_host tailscale_ip role reserved_cpu reserved_memory
    gpu node_labels taints

/-! ## Inventory store (`inventory.py`)

The `InventoryManager` raises `InventoryError` (and its subclass
`InventoryValidationError`) with distinctive messages; each raise site
is modelled by a constructor.  Uncaught Python exceptions (`KeyError`,
`TypeError`, `AttributeError`) that can escape an operation on a
malformed tree are modelled by `pyError`. -/

inductive InvErr where
  /-- `InventoryValidationError` from `validate` / `_validate_host`. -/
  | validation (msg : String)
  /-- `InventoryError`: node already exists in inventory. -/
  | duplicateHostname (hostname : String)
  /-- `InventoryError`: Tailscale IP already in use by another node. -/
  | duplicateAddress (ip : String)
  /-- `InventoryError`: node not found in inventory. -/
  | notFound (hostname : String)
  /-- `InventoryError`: scope not found in inventory. -/
  | scopeNotFound (scope : String)
  /-- An uncaught Python exception. -/
  | pyError (msg : String)
  deriving DecidableEq, Repr

/-- The role implied by the group a host is stored under. -/
def roleOfGroup (group : String) : String :=
  if group = "control_plane" then "control-plane" else "worker"

/-- The group implied by a role (`add_node` / `update_node`). -/
def groupOfRole (role : String) : String :=
  if role = "control-plane" then "control_plane" else "workers"

/-- Python dict unpacking with role override, as in the expression
`Node.from_inventory_dict(hostname, dict(host_data, role=role))` used by
`_validate_host` and `get_nodes`. -/
def mergeRole (host_data : List (String × Yaml)) (role : String) : List (String × Yaml) :=
  alistInsert host_data "role" (.str role)

/-- `InventoryManager._validate_host`. -/
def validateHost (group hostname : String) (hv : Yaml) : Except InvErr Unit :=
  match hv with
  | .map host_data =>
    if alistContains host_data "ansible_host" then
      if alistContains host_data "tailscale_ip" then
        match Node.from_inventory_dict hostname (mergeRole host_data (roleOfGroup group)) with
        | .ok _ => .ok ()
        | .error e =>
          .error (.validation ("Host " ++ hostname ++ " in group " ++ group ++
            " validation failed: " ++ e))
      else .error (.validation ("Host " ++ hostname ++ " in group " ++ group ++
        " missing required field: tailscale_ip"))
    else .error (.validation ("Host " ++ hostname ++ " in group " ++ group ++
      " missing required field: ansible_host"))
  | _ => .error (.validation ("Host " ++ hostname ++ " in group " ++ group ++
      " must be a dictionary"))

/-- The per-host loop of `validate` over one hosts mapping. -/
def validateHosts (group : String) : List (String × Yaml) → Except InvErr Unit
  | [] => .ok ()
  | (h, hv) :: rest => do
    validateHost group h hv
    validateHosts group rest

/-- The per-group body of `validate` for one required group. -/
def validateGroup (children : List (String × Yaml)) (group : String) : Except InvErr Unit :=
  match alistLookup children group with
  | none => .error (.validation ("Missing required group: " ++ group))
  | some (.map gm) =>
    match alistLookup gm "hosts" with
    | none => .ok ()
    | some (.map hosts) => validateHosts group hosts
    | some _ => .error (.validation ("hosts in group " ++ group ++ " must be a dictionary"))
  | some _ => .error (.validation ("Group " ++ group ++ " must be a dictionary"))

/-- `InventoryManager.validate`. -/
def validateDoc (doc : Yaml) : Except InvErr Unit :=
  match doc with
  | .map root =>
    match alistLookup root "all" with
    | none => .error (.validation "Inventory must have all group")
    | some (.map allM) =>
      match alistLookup allM "children" with
      | none => .error (.validation "all group must have children")
      | some (.map children) => do
        validateGroup children "control_plane"
        validateGroup children "workers"
      | some _ => .error (.validation "children must be a dictionary")
    | some _ => .error (.validation "all group must be a dictionary")
  | _ => .error (.validation "Inventory must be a dictionary")

/-- The per-host loop of `get_nodes` over one hosts mapping. -/
def collectNodes (role : String) : List (String × Yaml) → Except InvErr (List Node)
  | [] => .ok []
  | (h, hv) :: rest =>
    match hv with
    | .map host_data =>
      match Node.from_inventory_dict h (mergeRole host_data role) with
      | .ok n => do
        let ns ← collectNodes role rest
        pure (n :: ns)
      | .error e => .error (.pyError e)
    | _ => .error (.pyError "host entry is not a mapping")

/-- One iteration of the group loop of `get_nodes`: absent group or
absent `hosts` key is skipped.  (A non-mapping group value is only
reachable through an explicit group filter naming an extra group; the
required groups are mappings after validation.) -/
def groupNodes (children : List (String × Yaml)) (group_name : String) :
    Except InvErr (List Node) :=
  match alistLookup children group_name with
  | none => .ok []
  | some (.map gm) =>
    match alistLookup gm "hosts" with
    | none => .ok []
    | some (.map hosts) => collectNodes (roleOfGroup group_name) hosts
    | some _ => .error (.pyError "hosts is not a mapping")
  | some _ => .error (.pyError "group is not a mapping")

/-- `InventoryManager.get_nodes` on an already-parsed document. -/
def get_nodes (doc : Yaml) (group : Option String) : Except InvErr (List Node) := do
  validateDoc doc
  match doc with
  | .map root =>
    match alistLookup root "all" with
    | some (.map allM) =>
      match alistLookup allM "children" with
      | some (.map children) =>
        match group with
        | some g => groupNodes children g
        | none => do
          let a ← groupNodes children "control_plane"
          let b ← groupNodes children "workers"
          pure (a ++ b)
      | _ => .error (.pyError "missing children")
    | _ => .error (.pyError "missing all")
  | _ => .error (.pyError "document is not a mapping")

/-- Rebuild the document after the in-place mutation of
`data["all"]["children"]`. -/
def rebuildDoc (root allM children : List (String × Yaml)) : Yaml :=
  .map (alistInsert root "all" (.map (alistInsert allM "children" (.map children))))

/-- `hostname in children[group]["hosts"]` guarded by the membership
tests of the search loops of `remove_node` / `update_node`. -/
def groupHasHost (children : List (String × Yaml)) (group hostname : String) : Bool :=
  match alistLookup children group with
  | some (.map gm) =>
    match alistLookup gm "hosts" with
    | some (.map hosts) => alistContains hosts hostname
    | _ => false
  | _ => false

/-- `children[group]["hosts"][node.hostname] = node.to_inventory_dict()`,
lazily creating the group mapping and its `hosts` mapping when absent
(the non-mapping cases are unreachable after validation). -/
def setHostInGroup (children : List (String × Yaml)) (group : String) (node : Node) :
    List (String × Yaml) :=
  let gm := match alistLookup children group with
    | some (.map m) => m
    | _ => []
  let hosts := match alistLookup gm "hosts" with
    | some (.map hs) => hs
    | _ => []
  alistInsert children group
    (.map (alistInsert gm "hosts"
      (.map (alistInsert hosts node.hostname (.map node.to_inventory_dict)))))

/-- `del children[group]["hosts"][hostname]`. -/
def eraseHostFromGroup (children : List (String × Yaml)) (group hostname : String) :
    List (String × Yaml) :=
  match alistLookup children group with
  | some (.map gm) =>
    match alistLookup gm "hosts" with
    | some (.map hosts) =>
      alistInsert children group
        (.map (alistInsert gm "hosts" (.map (alistErase hosts hostname))))
    | _ => children
  | _ => children

/-- `InventoryManager.add_node` on an already-parsed document; the
returned document is the one handed to `write`. -/
def add_node (doc : Yaml) (node : Node) : Except InvErr Yaml := do
  validateDoc doc
  let group := groupOfRole node.role
  let existing ← get_nodes doc none
  if existing.any fun n => n.hostname = node.hostname then
    Except.error (.duplicateHostname node.hostname)
  else if existing.any fun n => n.tailscale_ip = node.tailscale_ip then
    Except.error (.duplicateAddress node.tailscale_ip)
  else
    match doc with
    | .map root =>
      match alistLookup root "all" with
      | some (.map allM) =>
        match alistLookup allM "children" with
        | some (.map children) =>
          pure (rebuildDoc root allM (setHostInGroup children group node))
        | _ => Except.error (.pyError "missing children")
      | _ => Except.error (.pyError "missing all")
    | _ => Except.error (.pyError "document is not a mapping")

/-- `InventoryManager.remove_node` on an already-parsed document:
search `control_plane` then `workers`, delete the first hit, else
`NotFound`. -/
def remove_node (doc : Yaml) (hostname : String) : Except InvErr Yaml := do
  validateDoc doc
  match doc with
  | .map root =>
    match alistLookup root "all" with
    | some (.map allM) =>
      match alistLookup allM "children" with
      | some (.map children) =>
        if groupHasHost children "control_plane" hostname then
          pure (rebuildDoc root allM (eraseHostFromGroup children "control_plane" hostname))
        else if groupHasHost children "workers" hostname then
          pure (rebuildDoc root allM (eraseHostFromGroup children "workers" hostname))
        else Except.error (.notFound hostname)
      | _ => Except.error (.pyError "missing children")
    | _ => Except.error (.pyError "missing all")
  | _ => Except.error (.pyError "document is not a mapping")

/-- The body of `update_node` once the host has been found in `group`:
move between groups when the stored role differs from `node.role`,
otherwise overwrite in place. -/
def updateInChildren (children : List (String × Yaml)) (group : String) (node : Node) :
    List (String × Yaml) :=
  if roleOfGroup group ≠ node.role then
    setHostInGroup (eraseHostFromGroup children group node.hostname)
      (groupOfRole node.role) node
  else
    setHostInGroup children group node

/-- `InventoryManager.update_node` on an already-parsed document. -/
def update_node (doc : Yaml) (node : Node) : Except InvErr Yaml := do
  validateDoc doc
  match doc with
  | .map root =>
    match alistLookup root "all" with
    | some (.map allM) =>
      match alistLookup allM "children" with
      | some (.map children) =>
        if groupHasHost children "control_plane" node.hostname then
          pure (rebuildDoc root allM (updateInChildren children "control_plane" node))
        else if groupHasHost children "workers" node.hostname then
          pure (rebuildDoc root allM (updateInChildren children "workers" node))
        else Except.error (.notFound node.hostname)
      | _ => Except.error (.pyError "missing children")
    | _ => Except.error (.pyError "missing all")
  | _ => Except.error (.pyError "document is not a mapping")

/-- `InventoryManager.get_vars` on an already-parsed document.  Note:
no schema validation is performed.  A missing `all` or `children`
mapping yields the empty-dict default, so an unknown scope is reported
as scope-not-found; a scalar where a mapping is expected raises
(`pyError`). -/
def get_vars (doc : Yaml) (scope : String) : Except InvErr Yaml :=
  match doc with
  | .map root =>
    if scope = "all" then
      match alistLookup root "all" with
      | none => .ok (.map [])
      | some (.map allM) => .ok ((alistLookup allM "vars").getD (.map []))
      | some _ => .error (.pyError "AttributeError: get on a non-mapping")
    else
      match alistLookup root "all" with
      | none => .error (.scopeNotFound scope)
      | some (.map allM) =>
        match alistLookup allM "children" with
        | none => .error (.scopeNotFound scope)
        | some (.map children) =>
          match alistLookup children scope with
          | none => .error (.scopeNotFound scope)
          | some (.map gm) => .ok ((alistLookup gm "vars").getD (.map []))
          | some _ => .error (.pyError "AttributeError: get on a non-mapping")
        | some _ => .error (.pyError "membership test on a non-mapping")
      | some _ => .error (.pyError "AttributeError: get on a non-mapping")
  | _ => .error (.pyError "AttributeError: get on a non-mapping")

/-- `InventoryManager.set_var` on an already-parsed document; the
returned document is the one handed to `write`.  Note: no schema
validation is performed before the write. -/
def set_var (doc : Yaml) (key : String) (value : Yaml) (scope : String) :
    Except InvErr Yaml :=
  match doc with
  | .map root =>
    if scope = "all" then
      match alistLookup root "all" with
      | none => .error (.pyError "KeyError: all")
      | some (.map allM) =>
        match alistLookup allM "vars" with
        | none =>
          .ok (.map (alistInsert root "all"
            (.map (alistInsert allM "vars" (.map [(key, value)])))))
        | some (.map vars) =>
          .ok (.map (alistInsert root "all"
            (.map (alistInsert allM "vars" (.map (alistInsert vars key value))))))
        | some _ => .error (.pyError "TypeError: item assignment on a non-mapping")
      | some _ => .error (.pyError "membership test on a non-mapping")
    else
      match alistLookup root "all" with
      | none => .error (.pyError "KeyError: all")
      | some (.map allM) =>
        match alistLookup allM "children" with
        | none => .error (.pyError "KeyError: children")
        | some (.map children) =>
          match alistLookup children scope with
          | none => .error (.scopeNotFound scope)
          | some (.map gm) =>
            let vs := match alistLookup gm "vars" with
              | some (.map vars) => some vars
              | none => some []
              | some _ => none
            match vs with
            | some vars =>
              .ok (rebuildDoc root allM
                (alistInsert children scope
                  (.map (alistInsert gm "vars" (.map (alistInsert vars key value))))))
            | none => .error (.pyError "TypeError: item assignment on a non-mapping")
          | some _ => .error (.pyError "membership test on a non-mapping")
        | some _ => .error (.pyError "membership test on a non-mapping")
      | some _ => .error (.pyError "KeyError: children")
  | _ => .error (.pyError "TypeError: document is not a mapping")

/-! ## File write with backup (`InventoryManager.write`)

The filesystem is modelled as a mapping from paths (file names) to
contents.  `Path.with_suffix` replaces the suffix of the final path
component (the part from the last dot, when that dot is neither the
first nor the last character) rather than appending. -/

/-- Split a character list at its last dot: `(before, after)`. -/
def lastDotSplit : List Char → Option (List Char × List Char)
  | [] => none
  | c :: rest =>
    match lastDotSplit rest with
    | some (pre, post) => some (c :: pre, post)
    | none => if c = '.' then some ([], rest) else none

/-- `PurePath.suffix` as `(stem, suffix)`: the suffix starts at the last
dot provided that dot is neither the first nor the last character. -/
def splitSuffix (name : String) : String × String :=
  match lastDotSplit name.toList with
  | some (pre, post) =>
    if pre ≠ [] ∧ post ≠ [] then (String.mk pre, String.mk ('.' :: post))
    else (name, "")
  | none => (name, "")

/-- `PurePath.with_suffix(sfx)`: drop the existing suffix, append `sfx`. -/
def withSuffix (name sfx : String) : String :=
  (splitSuffix name).1 ++ sfx

/-- The backup location used by `write`:
`self.inventory_path.with_suffix(".yml.backup")`. -/
def backupPath (path : String) : String :=
  withSuffix path ".yml.backup"

/-- `InventoryManager.write` on the filesystem model: when a file
exists at `path` its contents are first copied to `backupPath path`,
then the new content is written at `path`. -/
def writeFile (fs : List (String × String)) (path content : String) :
    List (String × String) :=
  let fs₁ := match alistLookup fs path with
    | some old => alistInsert fs (backupPath path) old
    | none => fs
  alistInsert fs₁ path content

/-! ## Observations on a document

Accessors used to state the invariants: the hosts mapping of a group,
the hostnames and the `tailscale_ip` strings stored across both groups. -/

/-- The `children` mapping of a document (empty when absent). -/
def docChildren (doc : Yaml) : List (String × Yaml) :=
  match doc with
  | .map root =>
    match alistLookup root "all" with
    | some (.map allM) =>
      match alistLookup allM "children" with
      | some (.map children) => children
      | _ => []
    | _ => []
  | _ => []

/-- The hosts mapping stored under one group (empty when absent). -/
def hostsOfGroup (children : List (String × Yaml)) (group : String) :
    List (String × Yaml) :=
  match alistLookup children group with
  | some (.map gm) =>
    match alistLookup gm "hosts" with
    | some (.map hosts) => hosts
    | _ => []
  | _ => []

/-- The `tailscale_ip` string stored in one host entry, when present. -/
def entryIP (hv : Yaml) : Option String :=
  match hv with
  | .map m =>
    match alistLookup m "tailscale_ip" with
    | some (.str s) => some s
    | _ => none
  | _ => none

/-- The stored `tailscale_ip` strings of a hosts mapping, in order. -/
def hostsIPs (hosts : List (String × Yaml)) : List String :=
  hosts.filterMap fun e => entryIP e.2

/-- The hostnames of one group of a document. -/
def groupHostnames (doc : Yaml) (group : String) : List String :=
  alistKeys (hostsOfGroup (docChildren doc) group)

/-- All hostnames stored in a document, `control_plane` group first. -/
def docHostnames (doc : Yaml) : List String :=
  groupHostnames doc "control_plane" ++ groupHostnames doc "workers"

/-- All `tailscale_ip` strings stored in a document. -/
def docIPs (doc : Yaml) : List String :=
  hostsIPs (hostsOfGroup (docChildren doc) "control_plane") ++
    hostsIPs (hostsOfGroup (docChildren doc) "workers")

/-! ## Concrete fixtures (used by witnesses and counterexamples) -/

/-- An empty inventory: both groups present with empty hosts. -/
def emptyDoc : Yaml := .map [("all", .map [
  ("children", .map [
    ("control_plane", .map [("hosts", .map [])]),
    ("workers", .map [("hosts", .map [])])])])]

/-- A valid worker node. -/
def wNode : Node :=
  ⟨"worker-1", "100.64.0.2", "100.64.0.2", "worker", none, none, false, [], []⟩

/-- A valid control-plane node. -/
def cpNode : Node :=
  ⟨"cp-1", "100.64.0.1", "100.64.0.1", "control-plane", none, none, false, [], []⟩

/-- An inventory holding `cpNode` and `wNode`. -/
def twoHostDoc : Yaml := .map [("all", .map [
  ("children", .map [
    ("control_plane", .map [("hosts", .map [
      ("cp-1", .map [("ansible_host", .str "100.64.0.1"),
                     ("tailscale_ip", .str "100.64.0.1")])])]),
    ("workers", .map [("hosts", .map [
      ("worker-1", .map [("ansible_host", .str "100.64.0.2"),
                         ("tailscale_ip", .str "100.64.0.2")])])])])])]

/-! # Lemmas about the dictionary operations -/

theorem alistLookup_insert_self (l : List (String × α)) (k : String) (v : α) :
    alistLookup (alistInsert l k v) k = some v := by
  induction l with
  | nil => simp [alistInsert, alistLookup]
  | cons e rest ih =>
    obtain ⟨k₀, v₀⟩ := e
    by_cases h : k₀ = k <;> simp [alistInsert, alistLookup, h, ih]

theorem alistLookup_insert_ne (l : List (String × α)) (k k' : String) (v : α)
    (h : k ≠ k') : alistLookup (alistInsert l k v) k' = alistLookup l k' := by
  induction l with
  | nil => simp [alistInsert, alistLookup, h]
  | cons e rest ih =>
    obtain ⟨k₀, v₀⟩ := e
    by_cases h₀ : k₀ = k
    · subst h₀; simp [alistInsert, alistLookup, h, ih]
    · simp [alistInsert, alistLookup, h₀, ih]

theorem alistKeys_nil : alistKeys ([] : List (String × α)) = [] := rfl

theorem alistKeys_cons (k₀ : String) (v₀ : α) (rest : List (String × α)) :
    alistKeys ((k₀, v₀) :: rest) = k₀ :: alistKeys rest := rfl

theorem alistLookup_isSome_iff (l : List (String × α)) (k : String) :
    (alistLookup l k).isSome = true ↔ k ∈ alistKeys l := by
  induction l with
  | nil => simp [alistLookup, alistKeys_nil]
  | cons e rest ih =>
    obtain ⟨k₀, v₀⟩ := e
    rw [alistKeys_cons, List.mem_cons]
    by_cases h : k₀ = k
    · simp [alistLookup, h]
    · have : ¬k = k₀ := fun hh => h hh.symm
      simp [alistLookup, h, this, ih]

theorem alistLookup_eq_none_iff (l : List (String × α)) (k : String) :
    alistLookup l k = none ↔ k ∉ alistKeys l := by
  rw [← alistLookup_isSome_iff l k]
  cases alistLookup l k <;> simp

theorem alistContains_iff (l : List (String × α)) (k : String) :
    alistContains l k = true ↔ k ∈ alistKeys l := by
  rw [alistContains, alistLookup_isSome_iff]

theorem alistKeys_insert_mem (l : List (String × α)) (k : String) (v : α)
    (h : k ∈ alistKeys l) : alistKeys (alistInsert l k v) = alistKeys l := by
  induction l with
  | nil => simp [alistKeys_nil] at h
  | cons e rest ih =>
    obtain ⟨k₀, v₀⟩ := e
    by_cases h₀ : k₀ = k
    · simp [alistInsert, h₀, alistKeys_cons]
    · rw [alistKeys_cons, List.mem_cons] at h
      rcases h with h | h
      · exact absurd h.symm h₀
      · simp [alistInsert, h₀, alistKeys_cons, ih h]

theorem alistKeys_insert_not_mem (l : List (String × α)) (k : String) (v : α)
    (h : k ∉ alistKeys l) : alistKeys (alistInsert l k v) = alistKeys l ++ [k] := by
  induction l with
  | nil => simp [alistInsert, alistKeys_cons, alistKeys_nil]
  | cons e rest ih =>
    obtain ⟨k₀, v₀⟩ := e
    rw [alistKeys_cons, List.mem_cons] at h
    push_neg at h
    have h₀ : ¬k₀ = k := fun hh => h.1 hh.symm
    simp [alistInsert, h₀, alistKeys_cons, ih h.2]

theorem mem_alistKeys_insert_self (l : List (String × α)) (k : String) (v : α) :
    k ∈ alistKeys (alistInsert l k v) := by
  by_cases h : k ∈ alistKeys l
  · rw [alistKeys_insert_mem l k v h]; exact h
  · rw [alistKeys_insert_not_mem l k v h]; simp

theorem alistErase_sublist (l : List (String × α)) (k : String) :
    List.Sublist (alistErase l k) l := by
  induction l with
  | nil => simp [alistErase]
  | cons e rest ih =>
    obtain ⟨k₀, v₀⟩ := e
    by_cases h : k₀ = k
    · simp only [alistErase, if_pos h]
      exact List.sublist_cons_self (k₀, v₀) rest
    · simpa [alistErase, h] using List.Sublist.cons₂ (k₀, v₀) ih

theorem alistKeys_erase_sublist (l : List (String × α)) (k : String) :
    List.Sublist (alistKeys (alistErase l k)) (alistKeys l) :=
  List.Sublist.map Prod.fst (alistErase_sublist l k)

theorem alistContains_erase_self (l : List (String × α)) (k : String)
    (hnd : (alistKeys l).Nodup) : alistContains (alistErase l k) k = false := by
  induction l with
  | nil => simp [alistErase, alistContains, alistLookup]
  | cons e rest ih =>
    obtain ⟨k₀, v₀⟩ := e
    rw [alistKeys_cons, List.nodup_cons] at hnd
    by_cases h : k₀ = k
    · subst h
      simp only [alistErase, if_pos rfl]
      rw [Bool.eq_false_iff]
      intro hc
      rw [alistContains_iff] at hc
      exact hnd.1 hc
    · simp only [alistErase, if_neg h]
      simp only [alistContains, alistLookup, if_neg h]
      exact ih hnd.2

theorem alistLookup_erase_ne (l : List (String × α)) (k k' : String) (h : k ≠ k') :
    alistLookup (alistErase l k) k' = alistLookup l k' := by
  induction l with
  | nil => simp [alistErase]
  | cons e rest ih =>
    obtain ⟨k₀, v₀⟩ := e
    by_cases h₀ : k₀ = k
    · subst h₀
      simp [alistErase, alistLookup, fun hh : k₀ = k' => h hh]
    · simp [alistErase, alistLookup, h₀, ih]

/-! # Lemmas about the host model codec -/

theorem except_bind_ok {ε α β : Type} (e : Except ε α) (f : α → Except ε β) (b : β) :
    (e >>= f) = .ok b ↔ ∃ a, e = .ok a ∧ f a = .ok b := by
  cases e <;> simp [Bind.bind, Except.bind]

theorem from_inventory_dict_ok_iff (hostname : String) (data : List (String × Yaml))
    (n : Node) :
    Node.from_inventory_dict hostname data = .ok n ↔
      ∃ taints ansible_host tailscale_ip role reserved_cpu reserved_memory gpu node_labels,
        readTaints data = .ok taints ∧
        readStrField data "ansible_host" = .ok ansible_host ∧
        readStrField data "tailscale_ip" = .ok tailscale_ip ∧
        readRole data = .ok role ∧
        readOptStr data "reserved_cpu" = .ok reserved_cpu ∧
        readOptStr data "reserved_memory" = .ok reserved_memory ∧
        readGpu data = .ok gpu ∧
        readLabels data = .ok node_labels ∧
        mkNode hostname ansible_host tailscale_ip role reserved_cpu reserved_memory
          gpu node_labels taints = .ok n := by
  simp only [Node.from_inventory_dict, except_bind_ok]
  tauto

theorem mkNode_ok_inv {hostname ansible_host tailscale_ip role : String}
    {reserved_cpu reserved_memory : Option String} {gpu : Bool}
    {node_labels : List (String × String)} {node_taints : List NodeTaint} {n : Node}
    (hp : mkNode hostname ansible_host tailscale_ip role reserved_cpu reserved_memory
      gpu node_labels node_taints = .ok n) :
    n = ⟨hostname, ansible_host, tailscale_ip, role, reserved_cpu, reserved_memory,
         gpu, node_labels, node_taints⟩ := by
  unfold mkNode at hp
  repeat' split at hp
  all_goals (first | (cases hp; rfl) | cases hp)

theorem readStrField_ok_inv {data : List (String × Yaml)} {field s : String}
    (hp : readStrField data field = .ok s) : alistLookup data field = some (.str s) := by
  unfold readStrField at hp
  repeat' split at hp
  all_goals (first | (cases hp; assumption) | cases hp)

theorem parseTaint_taintToYaml (t : NodeTaint) (hwf : t.wellFormed = true) :
    parseTaint (taintToYaml t) = .ok t := by
  obtain ⟨k, v, e⟩ := t
  simp only [NodeTaint.wellFormed] at hwf
  simp [parseTaint, taintToYaml, alistLookup, hwf]

theorem parseTaints_map (ts : List NodeTaint) (hwf : ∀ t ∈ ts, t.wellFormed = true) :
    parseTaints (ts.map taintToYaml) = .ok ts := by
  induction ts with
  | nil => simp [parseTaints]
  | cons t rest ih =>
    have h₁ := parseTaint_taintToYaml t (hwf t (by simp))
    have h₂ := ih (fun x hx => hwf x (by simp [hx]))
    simp [parseTaints, h₁, h₂, Bind.bind, Except.bind, pure, Except.pure]

theorem parseLabels_map (ls : List (String × String)) :
    parseLabels (ls.map fun kv => (kv.1, Yaml.str kv.2)) = some ls := by
  induction ls with
  | nil => simp [parseLabels]
  | cons kv rest ih =>
    obtain ⟨k, v⟩ := kv
    simp [parseLabels, ih]

/-- The serialize/deserialize round trip, for hosts on which it holds:
the `role` field is not serialized, so the round trip can only
reproduce `worker` roles, and a truthiness test drops an empty-string
resource hint. -/
theorem from_to_roundtrip (n : Node) (hwf : n.wellFormed = true)
    (hrole : n.role = "worker") (hrc : n.reserved_cpu ≠ some "")
    (hrm : n.reserved_memory ≠ some "") :
    Node.from_inventory_dict n.hostname n.to_inventory_dict = .ok n := by
  obtain ⟨h, a, ip, r, rc, rm, g, ls, ts⟩ := n
  simp only [Node.wellFormed, Bool.and_eq_true] at hwf
  obtain ⟨⟨⟨⟨hh, ha⟩, hip⟩, hr⟩, hts⟩ := hwf
  simp only at hrole
  subst hrole
  rw [List.all_eq_true] at hts
  simp only [ne_eq, Option.some.injEq] at hrc hrm
  have hts' := parseTaints_map ts (fun t ht => hts t ht)
  have hls' := parseLabels_map ls
  rcases rc with _ | s₁ <;> rcases rm with _ | s₂ <;> cases g <;>
    rcases ls with _ | ⟨kv, lrest⟩ <;> rcases ts with _ | ⟨t₀, trest⟩ <;>
    simp_all [Node.to_inventory_dict, Node.from_inventory_dict, readTaints,
      readStrField, readRole, readOptStr, readGpu, readLabels, mkNode,
      labelsToYaml, alistLookup, Bind.bind, Except.bind, pure, Except.pure]

/-! # Lemmas about the validator -/

theorem except_bind_error {ε α β : Type} (e : Except ε α) (f : α → Except ε β) (err : ε) :
    (e >>= f) = .error err ↔
      e = .error err ∨ ∃ a, e = .ok a ∧ f a = .error err := by
  cases e <;> simp [Bind.bind, Except.bind]

theorem validateHost_error_shape {g h : String} {hv : Yaml} {e : InvErr}
    (hp : validateHost g h hv = .error e) : ∃ m, e = .validation m := by
  unfold validateHost at hp
  repeat' split at hp
  all_goals (first | (cases hp; exact ⟨_, rfl⟩) | cases hp)

theorem validateHosts_error_shape {g : String} {l : List (String × Yaml)} {e : InvErr}
    (hp : validateHosts g l = .error e) : ∃ m, e = .validation m := by
  induction l with
  | nil => cases hp
  | cons kv rest ih =>
    obtain ⟨h, hv⟩ := kv
    unfold validateHosts at hp
    rw [except_bind_error] at hp
    rcases hp with hp | ⟨a, _, hp⟩
    · exact validateHost_error_shape hp
    · exact ih hp

theorem validateGroup_error_shape {children : List (String × Yaml)} {g : String} {e : InvErr}
    (hp : validateGroup children g = .error e) : ∃ m, e = .validation m := by
  unfold validateGroup at hp
  repeat' split at hp
  all_goals (first | (cases hp; exact ⟨_, rfl⟩) | cases hp | exact validateHosts_error_shape hp)

theorem validateDoc_error_shape {doc : Yaml} {e : InvErr}
    (hp : validateDoc doc = .error e) : ∃ m, e = .validation m := by
  unfold validateDoc at hp
  repeat' split at hp
  all_goals first
  | (cases hp; exact ⟨_, rfl⟩)
  | cases hp
  | (rw [except_bind_error] at hp
     rcases hp with hp | ⟨a, _, hp⟩ <;> exact validateGroup_error_shape hp)

theorem add_node_validate_error {doc : Yaml} {node : Node} {e : InvErr}
    (hval : validateDoc doc = .error e) : add_node doc node = .error e := by
  unfold add_node
  rw [hval]
  rfl

theorem remove_node_validate_error {doc : Yaml} {h : String} {e : InvErr}
    (hval : validateDoc doc = .error e) : remove_node doc h = .error e := by
  unfold remove_node
  rw [hval]
  rfl

theorem update_node_validate_error {doc : Yaml} {node : Node} {e : InvErr}
    (hval : validateDoc doc = .error e) : update_node doc node = .error e := by
  unfold update_node
  rw [hval]
  rfl

theorem get_nodes_validate_error {doc : Yaml} {g : Option String} {e : InvErr}
    (hval : validateDoc doc = .error e) : get_nodes doc g = .error e := by
  unfold get_nodes
  rw [hval]
  rfl

/-! # Lemmas about the document accessors -/

theorem docChildren_rebuild (root allM children : List (String × Yaml)) :
    docChildren (rebuildDoc root allM children) = children := by
  simp [docChildren, rebuildDoc, alistLookup_insert_self]

theorem hostsOfGroup_setHost_other (children : List (String × Yaml)) (g g₂ : String)
    (node : Node) (hne : g ≠ g₂) :
    hostsOfGroup (setHostInGroup children g node) g₂ = hostsOfGroup children g₂ := by
  unfold setHostInGroup hostsOfGroup
  rw [alistLookup_insert_ne _ _ _ _ hne]

theorem hostsOfGroup_erase_other (children : List (String × Yaml)) (g g₂ h : String)
    (hne : g ≠ g₂) :
    hostsOfGroup (eraseHostFromGroup children g h) g₂ = hostsOfGroup children g₂ := by
  unfold eraseHostFromGroup
  repeat' split
  all_goals first
  | rfl
  | (unfold hostsOfGroup; rw [alistLookup_insert_ne _ _ _ _ hne])

theorem setHost_eq {children gm hosts : List (String × Yaml)} {g : String} {node : Node}
    (hg : alistLookup children g = some (.map gm))
    (hh : alistLookup gm "hosts" = some (.map hosts)) :
    setHostInGroup children g node =
      alistInsert children g (.map (alistInsert gm "hosts"
        (.map (alistInsert hosts node.hostname (.map node.to_inventory_dict))))) := by
  simp [setHostInGroup, hg, hh]

theorem setHost_eq_nohosts {children gm : List (String × Yaml)} {g : String} {node : Node}
    (hg : alistLookup children g = some (.map gm))
    (hh : alistLookup gm "hosts" = none) :
    setHostInGroup children g node =
      alistInsert children g (.map (alistInsert gm "hosts"
        (.map [(node.hostname, .map node.to_inventory_dict)]))) := by
  simp [setHostInGroup, hg, hh, alistInsert]

theorem erase_eq {children gm hosts : List (String × Yaml)} {g h : String}
    (hg : alistLookup children g = some (.map gm))
    (hh : alistLookup gm "hosts" = some (.map hosts)) :
    eraseHostFromGroup children g h =
      alistInsert children g (.map (alistInsert gm "hosts"
        (.map (alistErase hosts h)))) := by
  simp [eraseHostFromGroup, hg, hh]

theorem hostsOfGroup_eq {children gm hosts : List (String × Yaml)} {g : String}
    (hg : alistLookup children g = some (.map gm))
    (hh : alistLookup gm "hosts" = some (.map hosts)) :
    hostsOfGroup children g = hosts := by
  simp [hostsOfGroup, hg, hh]

theorem hostsOfGroup_eq_nohosts {children gm : List (String × Yaml)} {g : String}
    (hg : alistLookup children g = some (.map gm))
    (hh : alistLookup gm "hosts" = none) :
    hostsOfGroup children g = [] := by
  simp [hostsOfGroup, hg, hh]

theorem hostsOfGroup_insert_group (children gm : List (String × Yaml)) (g : String) :
    hostsOfGroup (alistInsert children g (.map gm)) g =
      match alistLookup gm "hosts" with
      | some (.map hosts) => hosts
      | _ => [] := by
  unfold hostsOfGroup
  rw [alistLookup_insert_self]

theorem groupHasHost_true_inv {children : List (String × Yaml)} {g h : String}
    (hp : groupHasHost children g h = true) :
    ∃ gm hosts, alistLookup children g = some (.map gm) ∧
      alistLookup gm "hosts" = some (.map hosts) ∧ alistContains hosts h = true := by
  unfold groupHasHost at hp
  repeat' split at hp
  all_goals first
  | (exact ⟨_, _, by assumption, by assumption, hp⟩)
  | cases hp

theorem validateDoc_ok_inv {doc : Yaml} (hp : validateDoc doc = .ok ()) :
    ∃ root allM children, doc = .map root ∧
      alistLookup root "all" = some (.map allM) ∧
      alistLookup allM "children" = some (.map children) ∧
      validateGroup children "control_plane" = .ok () ∧
      validateGroup children "workers" = .ok () := by
  unfold validateDoc at hp
  repeat' split at hp
  all_goals try cases hp
  rw [except_bind_ok] at hp
  obtain ⟨a, h₁, h₂⟩ := hp
  cases a
  exact ⟨_, _, _, rfl, by assumption, by assumption, h₁, h₂⟩

theorem validateGroup_ok_inv {children : List (String × Yaml)} {g : String}
    (hp : validateGroup children g = .ok ()) :
    ∃ gm, alistLookup children g = some (.map gm) ∧
      (alistLookup gm "hosts" = none ∨
        ∃ hosts, alistLookup gm "hosts" = some (.map hosts) ∧
          validateHosts g hosts = .ok ()) := by
  unfold validateGroup at hp
  repeat' split at hp
  all_goals try cases hp
  · exact ⟨_, by assumption, .inl (by assumption)⟩
  · exact ⟨_, by assumption, .inr ⟨_, by assumption, hp⟩⟩

/-! # Lemmas about get_nodes -/

theorem from_ok_fields {h : String} {data : List (String × Yaml)} {n : Node}
    (hp : Node.from_inventory_dict h data = .ok n) :
    n.hostname = h ∧ alistLookup data "tailscale_ip" = some (.str n.tailscale_ip) := by
  rw [from_inventory_dict_ok_iff] at hp
  obtain ⟨ts, a, ip, r, rc, rm, g, lbl, hts, ha, hip, hr, hrc, hrm, hg, hl, hmk⟩ := hp
  have hn := mkNode_ok_inv hmk
  subst hn
  exact ⟨rfl, readStrField_ok_inv hip⟩

theorem mergeRole_lookup_ne (m : List (String × Yaml)) (role k : String)
    (hk : k ≠ "role") : alistLookup (mergeRole m role) k = alistLookup m k :=
  alistLookup_insert_ne m "role" k (.str role) (fun hh => hk hh.symm)

theorem hostsIPs_nil : hostsIPs [] = [] := rfl

theorem hostsIPs_append (l₁ l₂ : List (String × Yaml)) :
    hostsIPs (l₁ ++ l₂) = hostsIPs l₁ ++ hostsIPs l₂ := by
  simp [hostsIPs]

theorem alistKeys_append (l₁ l₂ : List (String × α)) :
    alistKeys (l₁ ++ l₂) = alistKeys l₁ ++ alistKeys l₂ := by
  simp [alistKeys]

theorem entryIP_to_inventory (n : Node) :
    entryIP (.map n.to_inventory_dict) = some n.tailscale_ip := by
  simp [entryIP, Node.to_inventory_dict, alistLookup]

theorem alistInsert_not_mem_eq (l : List (String × α)) (k : String) (v : α)
    (h : k ∉ alistKeys l) : alistInsert l k v = l ++ [(k, v)] := by
  induction l with
  | nil => simp [alistInsert]
  | cons e rest ih =>
    obtain ⟨k₀, v₀⟩ := e
    rw [alistKeys_cons, List.mem_cons] at h
    push_neg at h
    have h₀ : ¬k₀ = k := fun hh => h.1 hh.symm
    simp [alistInsert, h₀, ih h.2]

theorem collectNodes_ok {role : String} {hosts : List (String × Yaml)} {ns : List Node}
    (hp : collectNodes role hosts = .ok ns) :
    ns.map Node.hostname = alistKeys hosts ∧
    ns.map Node.tailscale_ip = hostsIPs hosts := by
  induction hosts generalizing ns with
  | nil =>
    unfold collectNodes at hp
    cases hp
    simp [alistKeys_nil, hostsIPs]
  | cons kv rest ih =>
    obtain ⟨h, hv⟩ := kv
    unfold collectNodes at hp
    split at hp
    case h_1 host_data =>
      split at hp
      case h_1 n hparse =>
        rw [except_bind_ok] at hp
        obtain ⟨ns', hrest, hpure⟩ := hp
        cases hpure
        obtain ⟨ih₁, ih₂⟩ := ih hrest
        obtain ⟨hhn, hipn⟩ := from_ok_fields hparse
        rw [mergeRole_lookup_ne _ _ _ (by decide)] at hipn
        constructor
        · simp [alistKeys_cons, ih₁, hhn]
        · simp [hostsIPs, List.filterMap_cons, entryIP, hipn]
          exact ih₂
      case h_2 => cases hp
    all_goals cases hp

theorem groupNodes_ok {children : List (String × Yaml)} {g : String} {ns : List Node}
    (hp : groupNodes children g = .ok ns) :
    ns.map Node.hostname = alistKeys (hostsOfGroup children g) ∧
    ns.map Node.tailscale_ip = hostsIPs (hostsOfGroup children g) := by
  unfold groupNodes at hp
  repeat' split at hp
  all_goals first
  | (cases hp; simp [hostsOfGroup, *, alistKeys_nil, hostsIPs])
  | cases hp
  | (rw [hostsOfGroup_eq (by assumption) (by assumption)]; exact collectNodes_ok hp)

theorem get_nodes_ok_validate {doc : Yaml} {g : Option String} {ns : List Node}
    (hp : get_nodes doc g = .ok ns) : validateDoc doc = .ok () := by
  unfold get_nodes at hp
  rw [except_bind_ok] at hp
  obtain ⟨a, h₁, _⟩ := hp
  cases a
  exact h₁

theorem get_nodes_none_ok {doc : Yaml} {ns : List Node}
    (hp : get_nodes doc none = .ok ns) :
    ns.map Node.hostname = docHostnames doc ∧
    ns.map Node.tailscale_ip = docIPs doc := by
  have hval := get_nodes_ok_validate hp
  obtain ⟨root, allM, children, hdoc, hall, hch, hcp, hw⟩ := validateDoc_ok_inv hval
  subst hdoc
  unfold get_nodes at hp
  rw [except_bind_ok] at hp
  obtain ⟨a, _, hp⟩ := hp
  simp only [hall, hch] at hp
  rw [except_bind_ok] at hp
  obtain ⟨nsc, hc, hp⟩ := hp
  rw [except_bind_ok] at hp
  obtain ⟨nsw, hw2, hp⟩ := hp
  cases hp
  obtain ⟨hc1, hc2⟩ := groupNodes_ok hc
  obtain ⟨hw1, hw2b⟩ := groupNodes_ok hw2
  unfold docHostnames docIPs groupHostnames docChildren
  simp [hall, hch, hc1, hc2, hw1, hw2b]

/-! # Lemmas about the store operations -/

theorem add_node_ok_inv {doc : Yaml} {node : Node} {doc' : Yaml}
    (hp : add_node doc node = .ok doc') :
    ∃ root allM children ns,
      doc = .map root ∧
      alistLookup root "all" = some (.map allM) ∧
      alistLookup allM "children" = some (.map children) ∧
      validateDoc doc = .ok () ∧
      get_nodes doc none = .ok ns ∧
      (ns.any fun n => n.hostname = node.hostname) = false ∧
      (ns.any fun n => n.tailscale_ip = node.tailscale_ip) = false ∧
      doc' = rebuildDoc root allM
        (setHostInGroup children (groupOfRole node.role) node) := by
  unfold add_node at hp
  rw [except_bind_ok] at hp
  obtain ⟨u, hval, hp⟩ := hp
  cases u
  simp only at hp
  rw [except_bind_ok] at hp
  obtain ⟨ns, hns, hp⟩ := hp
  split at hp
  · cases hp
  · split at hp
    · cases hp
    · obtain ⟨root, allM, children, hdoc, hall, hch, _, _⟩ := validateDoc_ok_inv hval
      subst hdoc
      simp only [hall, hch] at hp
      cases hp
      refine ⟨root, allM, children, ns, rfl, hall, hch, hval, hns, ?_, ?_, rfl⟩
      · simp_all
      · simp_all

theorem remove_node_ok_inv {doc : Yaml} {h : String} {doc' : Yaml}
    (hp : remove_node doc h = .ok doc') :
    ∃ root allM children,
      doc = .map root ∧ alistLookup root "all" = some (.map allM) ∧
      alistLookup allM "children" = some (.map children) ∧
      validateDoc doc = .ok () ∧
      ((groupHasHost children "control_plane" h = true ∧
        doc' = rebuildDoc root allM (eraseHostFromGroup children "control_plane" h)) ∨
       (groupHasHost children "control_plane" h = false ∧
        groupHasHost children "workers" h = true ∧
        doc' = rebuildDoc root allM (eraseHostFromGroup children "workers" h))) := by
  unfold remove_node at hp
  rw [except_bind_ok] at hp
  obtain ⟨u, hval, hp⟩ := hp
  cases u
  obtain ⟨root, allM, children, hdoc, hall, hch, _, _⟩ := validateDoc_ok_inv hval
  subst hdoc
  simp only [hall, hch] at hp
  split at hp
  · cases hp
    exact ⟨root, allM, children, rfl, hall, hch, hval, .inl ⟨by assumption, rfl⟩⟩
  · split at hp
    · cases hp
      refine ⟨root, allM, children, rfl, hall, hch, hval,
        .inr ⟨?_, by assumption, rfl⟩⟩
      simp_all
    · cases hp

theorem update_node_ok_inv {doc : Yaml} {node : Node} {doc' : Yaml}
    (hp : update_node doc node = .ok doc') :
    ∃ root allM children,
      doc = .map root ∧ alistLookup root "all" = some (.map allM) ∧
      alistLookup allM "children" = some (.map children) ∧
      validateDoc doc = .ok () ∧
      ((groupHasHost children "control_plane" node.hostname = true ∧
        doc' = rebuildDoc root allM (updateInChildren children "control_plane" node)) ∨
       (groupHasHost children "control_plane" node.hostname = false ∧
        groupHasHost children "workers" node.hostname = true ∧
        doc' = rebuildDoc root allM (updateInChildren children "workers" node))) := by
  unfold update_node at hp
  rw [except_bind_ok] at hp
  obtain ⟨u, hval, hp⟩ := hp
  cases u
  obtain ⟨root, allM, children, hdoc, hall, hch, _, _⟩ := validateDoc_ok_inv hval
  subst hdoc
  simp only [hall, hch] at hp
  split at hp
  · cases hp
    exact ⟨root, allM, children, rfl, hall, hch, hval, .inl ⟨by assumption, rfl⟩⟩
  · split at hp
    · cases hp
      refine ⟨root, allM, children, rfl, hall, hch, hval,
        .inr ⟨?_, by assumption, rfl⟩⟩
      simp_all
    · cases hp

theorem remove_node_notFound {doc : Yaml} {root allM children : List (String × Yaml)}
    {h : String}
    (hdoc : doc = .map root)
    (hall : alistLookup root "all" = some (.map allM))
    (hch : alistLookup allM "children" = some (.map children))
    (hval : validateDoc doc = .ok ())
    (h1 : groupHasHost children "control_plane" h = false)
    (h2 : groupHasHost children "workers" h = false) :
    remove_node doc h = .error (.notFound h) := by
  subst hdoc
  unfold remove_node
  rw [hval]
  simp [Bind.bind, Except.bind, hall, hch, h1, h2]

theorem validateHosts_sublist {g : String} {l' l : List (String × Yaml)}
    (hs : List.Sublist l' l) :
    validateHosts g l = .ok () → validateHosts g l' = .ok () := by
  induction hs with
  | slnil => exact id
  | cons e _ ih =>
    intro hp
    obtain ⟨h, hv⟩ := e
    unfold validateHosts at hp
    rw [except_bind_ok] at hp
    obtain ⟨u, _, h₂⟩ := hp
    exact ih h₂
  | cons₂ e _ ih =>
    intro hp
    obtain ⟨h, hv⟩ := e
    unfold validateHosts at hp
    rw [except_bind_ok] at hp
    obtain ⟨u, h₁, h₂⟩ := hp
    cases u
    unfold validateHosts
    rw [except_bind_ok]
    exact ⟨(), h₁, ih h₂⟩

theorem validateGroup_lookup_congr {c₁ c₂ : List (String × Yaml)} {g : String}
    (h : alistLookup c₁ g = alistLookup c₂ g) :
    validateGroup c₁ g = validateGroup c₂ g := by
  unfold validateGroup
  rw [h]

/-! # Preservation of validation -/

theorem hostsOfGroup_setHost_self (children : List (String × Yaml)) (g : String)
    (node : Node) :
    hostsOfGroup (setHostInGroup children g node) g =
      alistInsert (hostsOfGroup children g) node.hostname
        (.map node.to_inventory_dict) := by
  cases h1 : alistLookup children g with
  | none =>
    simp [setHostInGroup, hostsOfGroup, h1, alistLookup_insert_self, alistLookup,
      alistInsert]
  | some yv =>
    cases yv
    case map gm =>
      cases h2 : alistLookup gm "hosts" with
      | none =>
        simp [setHostInGroup, hostsOfGroup, h1, h2, alistLookup_insert_self,
          alistLookup, alistInsert]
      | some hv =>
        cases hv
        case map hosts =>
          simp [setHostInGroup, hostsOfGroup, h1, h2, alistLookup_insert_self]
        all_goals
          simp [setHostInGroup, hostsOfGroup, h1, h2, alistLookup_insert_self,
            alistLookup, alistInsert]
    all_goals
      simp [setHostInGroup, hostsOfGroup, h1, alistLookup_insert_self,
        alistLookup, alistInsert]

theorem hostsOfGroup_erase_self (children : List (String × Yaml)) (g h : String) :
    hostsOfGroup (eraseHostFromGroup children g h) g =
      alistErase (hostsOfGroup children g) h := by
  cases h1 : alistLookup children g with
  | none => simp [eraseHostFromGroup, hostsOfGroup, h1, alistErase]
  | some yv =>
    cases yv
    case map gm =>
      cases h2 : alistLookup gm "hosts" with
      | none => simp [eraseHostFromGroup, hostsOfGroup, h1, h2, alistErase]
      | some hv =>
        cases hv
        case map hosts =>
          simp [eraseHostFromGroup, hostsOfGroup, h1, h2, alistLookup_insert_self]
        all_goals simp [eraseHostFromGroup, hostsOfGroup, h1, h2, alistErase]
    all_goals simp [eraseHostFromGroup, hostsOfGroup, h1, alistErase]

theorem groupHasHost_eq (children : List (String × Yaml)) (g h : String) :
    groupHasHost children g h = alistContains (hostsOfGroup children g) h := by
  unfold groupHasHost hostsOfGroup
  repeat' split
  all_goals simp [alistContains, alistLookup]

theorem validateDoc_rebuild (root allM children' : List (String × Yaml))
    (hcp : validateGroup children' "control_plane" = .ok ())
    (hw : validateGroup children' "workers" = .ok ()) :
    validateDoc (rebuildDoc root allM children') = .ok () := by
  unfold validateDoc rebuildDoc
  simp [alistLookup_insert_self, hcp, hw, Bind.bind, Except.bind]

theorem validate_erase_preserved {root allM children : List (String × Yaml)}
    {g h : String}
    (hgrp : g = "control_plane" ∨ g = "workers")
    (hall : alistLookup root "all" = some (.map allM))
    (hch : alistLookup allM "children" = some (.map children))
    (hval : validateDoc (.map root) = .ok ()) :
    validateDoc (rebuildDoc root allM (eraseHostFromGroup children g h)) = .ok () := by
  obtain ⟨root', allM', children', hdoc, hall', hch', hcp, hw⟩ := validateDoc_ok_inv hval
  injection hdoc with hroot
  subst hroot
  rw [hall] at hall'
  injection hall' with hallM
  injection hallM with hallM
  subst hallM
  rw [hch] at hch'
  injection hch' with hchM
  injection hchM with hchM
  subst hchM
  apply validateDoc_rebuild
  · -- control_plane still validates
    cases hE : alistLookup children g with
    | none =>
      rw [@validateGroup_lookup_congr _ children _ (by simp [eraseHostFromGroup, hE])]
      exact hcp
    | some yv =>
      cases yv
      case map gm =>
        cases hH : alistLookup gm "hosts" with
        | none =>
          rw [@validateGroup_lookup_congr _ children _
            (by simp [eraseHostFromGroup, hE, hH])]
          exact hcp
        | some hv =>
          cases hv
          case map hosts =>
            rw [erase_eq hE hH]
            rcases hgrp with rfl | rfl
            · -- erasing in control_plane
              unfold validateGroup
              rw [alistLookup_insert_self]
              simp only [alistLookup_insert_self]
              unfold validateGroup at hcp
              rw [hE] at hcp
              simp only [hH] at hcp
              exact validateHosts_sublist (alistErase_sublist hosts h) hcp
            · -- erasing in workers: control_plane untouched
              rw [@validateGroup_lookup_congr _ children _
                (alistLookup_insert_ne _ _ _ _ (by decide))]
              exact hcp
          all_goals
            rw [@validateGroup_lookup_congr _ children _
              (by simp [eraseHostFromGroup, hE, hH])]
            exact hcp
      all_goals
        rw [@validateGroup_lookup_congr _ children _ (by simp [eraseHostFromGroup, hE])]
        exact hcp
  · -- workers still validates
    cases hE : alistLookup children g with
    | none =>
      rw [@validateGroup_lookup_congr _ children _ (by simp [eraseHostFromGroup, hE])]
      exact hw
    | some yv =>
      cases yv
      case map gm =>
        cases hH : alistLookup gm "hosts" with
        | none =>
          rw [@validateGroup_lookup_congr _ children _
            (by simp [eraseHostFromGroup, hE, hH])]
          exact hw
        | some hv =>
          cases hv
          case map hosts =>
            rw [erase_eq hE hH]
            rcases hgrp with rfl | rfl
            · rw [@validateGroup_lookup_congr _ children _
                (alistLookup_insert_ne _ _ _ _ (by decide))]
              exact hw
            · unfold validateGroup
              rw [alistLookup_insert_self]
              simp only [alistLookup_insert_self]
              unfold validateGroup at hw
              rw [hE] at hw
              simp only [hH] at hw
              exact validateHosts_sublist (alistErase_sublist hosts h) hw
          all_goals
            rw [@validateGroup_lookup_congr _ children _
              (by simp [eraseHostFromGroup, hE, hH])]
            exact hw
      all_goals
        rw [@validateGroup_lookup_congr _ children _ (by simp [eraseHostFromGroup, hE])]
        exact hw

/-! # The update analysis -/

theorem alistContains_false_not_mem {l : List (String × α)} {k : String}
    (h : alistContains l k = false) : k ∉ alistKeys l := by
  rw [← alistContains_iff]
  simp [h]

theorem not_mem_erase_keys {l : List (String × α)} {k : String}
    (hnd : (alistKeys l).Nodup) : k ∉ alistKeys (alistErase l k) :=
  alistContains_false_not_mem (alistContains_erase_self l k hnd)

theorem groupOfRole_cases (r : String) :
    groupOfRole r = "control_plane" ∨ groupOfRole r = "workers" := by
  unfold groupOfRole
  split <;> simp

theorem updateInChildren_spec {children : List (String × Yaml)} {g₀ : String}
    {node : Node}
    (hg₀ : g₀ = "control_plane" ∨ g₀ = "workers")
    (hfound : groupHasHost children g₀ node.hostname = true)
    (hnd : (alistKeys (hostsOfGroup children "control_plane") ++
            alistKeys (hostsOfGroup children "workers")).Nodup) :
    node.hostname ∈ alistKeys (hostsOfGroup (updateInChildren children g₀ node)
        (groupOfRole node.role)) ∧
    (groupOfRole node.role = "control_plane" →
      node.hostname ∉ alistKeys (hostsOfGroup (updateInChildren children g₀ node)
        "workers")) ∧
    (groupOfRole node.role = "workers" →
      node.hostname ∉ alistKeys (hostsOfGroup (updateInChildren children g₀ node)
        "control_plane")) ∧
    (alistKeys (hostsOfGroup (updateInChildren children g₀ node) "control_plane") ++
     alistKeys (hostsOfGroup (updateInChildren children g₀ node) "workers")).Nodup := by
  rw [groupHasHost_eq] at hfound
  have hmem := (alistContains_iff _ _).1 hfound
  rw [List.nodup_append] at hnd
  obtain ⟨hndcp, hndw, hdisj⟩ := hnd
  rcases hg₀ with rfl | rfl
  · -- found in control_plane
    by_cases hr : node.role = "control-plane"
    · -- in place
      have hupd : updateInChildren children "control_plane" node =
          setHostInGroup children "control_plane" node := by
        simp [updateInChildren, roleOfGroup, hr]
      have htg : groupOfRole node.role = "control_plane" := by
        simp [groupOfRole, hr]
      have hkcp : alistKeys (hostsOfGroup (setHostInGroup children "control_plane" node)
          "control_plane") = alistKeys (hostsOfGroup children "control_plane") := by
        rw [hostsOfGroup_setHost_self, alistKeys_insert_mem _ _ _ hmem]
      have hkw : hostsOfGroup (setHostInGroup children "control_plane" node) "workers" =
          hostsOfGroup children "workers" :=
        hostsOfGroup_setHost_other _ _ _ _ (by decide)
      rw [hupd, htg]
      refine ⟨?_, ?_, ?_, ?_⟩
      · rw [hkcp]; exact hmem
      · intro _; rw [hkw]; exact hdisj hmem
      · intro hcontra; exact absurd hcontra (by decide)
      · rw [List.nodup_append, hkcp, hkw]
        exact ⟨hndcp, hndw, hdisj⟩
    · -- move to workers
      have htg : groupOfRole node.role = "workers" := by
        simp [groupOfRole, hr]
      have hupd : updateInChildren children "control_plane" node =
          setHostInGroup (eraseHostFromGroup children "control_plane" node.hostname)
            "workers" node := by
        simp [updateInChildren, roleOfGroup, groupOfRole, hr, Ne.symm hr]
      have hnotw : node.hostname ∉ alistKeys (hostsOfGroup children "workers") :=
        hdisj hmem
      have hecp : hostsOfGroup (eraseHostFromGroup children "control_plane" node.hostname)
          "control_plane" = alistErase (hostsOfGroup children "control_plane")
            node.hostname := hostsOfGroup_erase_self _ _ _
      have hew : hostsOfGroup (eraseHostFromGroup children "control_plane" node.hostname)
          "workers" = hostsOfGroup children "workers" :=
        hostsOfGroup_erase_other _ _ _ _ (by decide)
      have hkcp : hostsOfGroup (updateInChildren children "control_plane" node)
          "control_plane" = alistErase (hostsOfGroup children "control_plane")
            node.hostname := by
        rw [hupd, hostsOfGroup_setHost_other _ _ _ _ (by decide), hecp]
      have hkw : alistKeys (hostsOfGroup (updateInChildren children "control_plane" node)
          "workers") = alistKeys (hostsOfGroup children "workers") ++ [node.hostname] := by
        rw [hupd, hostsOfGroup_setHost_self, hew,
          alistKeys_insert_not_mem _ _ _ hnotw]
      have herasesub :=
        alistKeys_erase_sublist (hostsOfGroup children "control_plane") node.hostname
      refine ⟨?_, ?_, ?_, ?_⟩
      · rw [htg, hkw]; simp
      · intro hcontra; rw [hcontra] at htg; exact absurd htg (by decide)
      · intro _; rw [hkcp]; exact not_mem_erase_keys hndcp
      · rw [List.nodup_append, hkcp, hkw]
        refine ⟨herasesub.nodup hndcp, ?_, ?_⟩
        · rw [List.nodup_append]
          refine ⟨hndw, List.nodup_singleton _, ?_⟩
          intro a ha hb
          rw [List.mem_singleton] at hb
          subst hb
          exact hnotw ha
        · intro a ha hb
          have hacp := herasesub.subset ha
          rw [List.mem_append, List.mem_singleton] at hb
          rcases hb with hb | rfl
          · exact hdisj hacp hb
          · exact not_mem_erase_keys hndcp ha
  · -- found in workers
    by_cases hr : node.role = "worker"
    · -- in place
      have hupd : updateInChildren children "workers" node =
          setHostInGroup children "workers" node := by
        simp [updateInChildren, roleOfGroup, hr]
      have htg : groupOfRole node.role = "workers" := by
        simp [groupOfRole, hr]
      have hkw : alistKeys (hostsOfGroup (setHostInGroup children "workers" node)
          "workers") = alistKeys (hostsOfGroup children "workers") := by
        rw [hostsOfGroup_setHost_self, alistKeys_insert_mem _ _ _ hmem]
      have hkcp : hostsOfGroup (setHostInGroup children "workers" node) "control_plane" =
          hostsOfGroup children "control_plane" :=
        hostsOfGroup_setHost_other _ _ _ _ (by decide)
      rw [hupd, htg]
      refine ⟨?_, ?_, ?_, ?_⟩
      · rw [hkw]; exact hmem
      · intro hcontra; exact absurd hcontra (by decide)
      · intro _; rw [hkcp]
        intro hc
        exact hdisj hc hmem
      · rw [List.nodup_append, hkcp, hkw]
        exact ⟨hndcp, hndw, hdisj⟩
    · by_cases hcpr : node.role = "control-plane"
      · -- move to control_plane
        have htg : groupOfRole node.role = "control_plane" := by
          simp [groupOfRole, hcpr]
        have hupd : updateInChildren children "workers" node =
            setHostInGroup (eraseHostFromGroup children "workers" node.hostname)
              "control_plane" node := by
          simp [updateInChildren, roleOfGroup, groupOfRole, hcpr]
        have hnotcp : node.hostname ∉ alistKeys (hostsOfGroup children "control_plane") := by
          intro hc
          exact hdisj hc hmem
        have hew : hostsOfGroup (eraseHostFromGroup children "workers" node.hostname)
            "workers" = alistErase (hostsOfGroup children "workers") node.hostname :=
          hostsOfGroup_erase_self _ _ _
        have hecp : hostsOfGroup (eraseHostFromGroup children "workers" node.hostname)
            "control_plane" = hostsOfGroup children "control_plane" :=
          hostsOfGroup_erase_other _ _ _ _ (by decide)
        have hkw : hostsOfGroup (updateInChildren children "workers" node) "workers" =
            alistErase (hostsOfGroup children "workers") node.hostname := by
          rw [hupd, hostsOfGroup_setHost_other _ _ _ _ (by decide), hew]
        have hkcp : alistKeys (hostsOfGroup (updateInChildren children "workers" node)
            "control_plane") = alistKeys (hostsOfGroup children "control_plane") ++
              [node.hostname] := by
          rw [hupd, hostsOfGroup_setHost_self, hecp,
            alistKeys_insert_not_mem _ _ _ hnotcp]
        have herasesub :=
          alistKeys_erase_sublist (hostsOfGroup children "workers") node.hostname
        refine ⟨?_, ?_, ?_, ?_⟩
        · rw [htg, hkcp]; simp
        · intro _; rw [hkw]; exact not_mem_erase_keys hndw
        · intro hcontra; rw [hcontra] at htg; exact absurd htg (by decide)
        · rw [List.nodup_append, hkcp, hkw]
          refine ⟨?_, herasesub.nodup hndw, ?_⟩
          · rw [List.nodup_append]
            refine ⟨hndcp, List.nodup_singleton _, ?_⟩
            intro a ha hb
            rw [List.mem_singleton] at hb
            subst hb
            exact hnotcp ha
          · intro a ha hb
            have hbw := herasesub.subset hb
            rw [List.mem_append, List.mem_singleton] at ha
            rcases ha with ha | rfl
            · exact hdisj ha hbw
            · exact not_mem_erase_keys hndw hb
      · -- degenerate move: role is neither worker nor control-plane
        have htg : groupOfRole node.role = "workers" := by
          simp [groupOfRole, hcpr]
        have hupd : updateInChildren children "workers" node =
            setHostInGroup (eraseHostFromGroup children "workers" node.hostname)
              "workers" node := by
          simp [updateInChildren, roleOfGroup, groupOfRole, hcpr, Ne.symm hr]
        have hew : hostsOfGroup (eraseHostFromGroup children "workers" node.hostname)
            "workers" = alistErase (hostsOfGroup children "workers") node.hostname :=
          hostsOfGroup_erase_self _ _ _
        have hecp : hostsOfGroup (eraseHostFromGroup children "workers" node.hostname)
            "control_plane" = hostsOfGroup children "control_plane" :=
          hostsOfGroup_erase_other _ _ _ _ (by decide)
        have hnoterase : node.hostname ∉
            alistKeys (alistErase (hostsOfGroup children "workers") node.hostname) :=
          not_mem_erase_keys hndw
        have hkw : alistKeys (hostsOfGroup (updateInChildren children "workers" node)
            "workers") = alistKeys (alistErase (hostsOfGroup children "workers")
              node.hostname) ++ [node.hostname] := by
          rw [hupd, hostsOfGroup_setHost_self, hew,
            alistKeys_insert_not_mem _ _ _ hnoterase]
        have hkcp : hostsOfGroup (updateInChildren children "workers" node)
            "control_plane" = hostsOfGroup children "control_plane" := by
          rw [hupd, hostsOfGroup_setHost_other _ _ _ _ (by decide), hecp]
        have herasesub :=
          alistKeys_erase_sublist (hostsOfGroup children "workers") node.hostname
        refine ⟨?_, ?_, ?_, ?_⟩
        · rw [htg, hkw]; simp
        · intro hcontra; rw [hcontra] at htg; exact absurd htg (by decide)
        · intro _; rw [hkcp]
          intro hc
          exact hdisj hc hmem
        · rw [List.nodup_append, hkcp, hkw]
          refine ⟨hndcp, ?_, ?_⟩
          · rw [List.nodup_append]
            refine ⟨herasesub.nodup hndw, List.nodup_singleton _, ?_⟩
            intro a ha hb
            rw [List.mem_singleton] at hb
            subst hb
            exact hnoterase ha
          · intro a ha hb
            rw [List.mem_append, List.mem_singleton] at hb
            rcases hb with hb | rfl
            · exact hdisj ha (herasesub.subset hb)
            · exact hdisj ha hmem

/-! # Keys and addresses across mutations -/

theorem keys_setHost_not_mem {children : List (String × Yaml)} {g : String} {node : Node}
    (hnm : node.hostname ∉ alistKeys (hostsOfGroup children g)) :
    alistKeys (hostsOfGroup (setHostInGroup children g node) g) =
      alistKeys (hostsOfGroup children g) ++ [node.hostname] := by
  rw [hostsOfGroup_setHost_self, alistKeys_insert_not_mem _ _ _ hnm]

theorem ips_setHost_not_mem {children : List (String × Yaml)} {g : String} {node : Node}
    (hnm : node.hostname ∉ alistKeys (hostsOfGroup children g)) :
    hostsIPs (hostsOfGroup (setHostInGroup children g node) g) =
      hostsIPs (hostsOfGroup children g) ++ [node.tailscale_ip] := by
  rw [hostsOfGroup_setHost_self, alistInsert_not_mem_eq _ _ _ hnm, hostsIPs_append]
  simp [hostsIPs, entryIP_to_inventory]

theorem hostsIPs_erase_sublist (l : List (String × Yaml)) (h : String) :
    List.Sublist (hostsIPs (alistErase l h)) (hostsIPs l) :=
  List.Sublist.filterMap _ (alistErase_sublist l h)

theorem nodup_snoc_append {xs ys : List String} {h : String}
    (hx : xs.Nodup) (hy : ys.Nodup) (hd : xs.Disjoint ys)
    (hhx : h ∉ xs) (hhy : h ∉ ys) :
    ((xs ++ [h]) ++ ys).Nodup := by
  rw [List.nodup_append]
  refine ⟨?_, hy, ?_⟩
  · rw [List.nodup_append]
    refine ⟨hx, List.nodup_singleton _, ?_⟩
    intro a ha hb
    rw [List.mem_singleton] at hb
    subst hb
    exact hhx ha
  · intro a ha hb
    rw [List.mem_append, List.mem_singleton] at ha
    rcases ha with ha | rfl
    · exact hd ha hb
    · exact hhy hb

theorem nodup_append_snoc {xs ys : List String} {h : String}
    (hx : xs.Nodup) (hy : ys.Nodup) (hd : xs.Disjoint ys)
    (hhx : h ∉ xs) (hhy : h ∉ ys) :
    (xs ++ (ys ++ [h])).Nodup := by
  rw [List.nodup_append]
  refine ⟨hx, ?_, ?_⟩
  · rw [List.nodup_append]
    refine ⟨hy, List.nodup_singleton _, ?_⟩
    intro a ha hb
    rw [List.mem_singleton] at hb
    subst hb
    exact hhy ha
  · intro a ha hb
    rw [List.mem_append, List.mem_singleton] at hb
    rcases hb with hb | rfl
    · exact hd ha hb
    · exact hhx ha

theorem docHostnames_rebuild (root allM children : List (String × Yaml)) :
    docHostnames (rebuildDoc root allM children) =
      alistKeys (hostsOfGroup children "control_plane") ++
        alistKeys (hostsOfGroup children "workers") := by
  simp [docHostnames, groupHostnames, docChildren_rebuild]

theorem docIPs_rebuild (root allM children : List (String × Yaml)) :
    docIPs (rebuildDoc root allM children) =
      hostsIPs (hostsOfGroup children "control_plane") ++
        hostsIPs (hostsOfGroup children "workers") := by
  simp [docIPs, docChildren_rebuild]

theorem docHostnames_shape {doc : Yaml} {root allM children : List (String × Yaml)}
    (hdoc : doc = .map root)
    (hall : alistLookup root "all" = some (.map allM))
    (hch : alistLookup allM "children" = some (.map children)) :
    docHostnames doc =
      alistKeys (hostsOfGroup children "control_plane") ++
        alistKeys (hostsOfGroup children "workers") := by
  subst hdoc
  simp [docHostnames, groupHostnames, docChildren, hall, hch]

theorem docIPs_shape {doc : Yaml} {root allM children : List (String × Yaml)}
    (hdoc : doc = .map root)
    (hall : alistLookup root "all" = some (.map allM))
    (hch : alistLookup allM "children" = some (.map children)) :
    docIPs doc =
      hostsIPs (hostsOfGroup children "control_plane") ++
        hostsIPs (hostsOfGroup children "workers") := by
  subst hdoc
  simp [docIPs, docChildren, hall, hch]

/-- The duplicate checks of `add_node` in terms of the stored document:
when the call succeeds, neither the hostname nor the IP was present. -/
theorem add_node_fresh {doc : Yaml} {node : Node} {doc' : Yaml}
    (hp : add_node doc node = .ok doc') :
    node.hostname ∉ docHostnames doc ∧ node.tailscale_ip ∉ docIPs doc := by
  obtain ⟨root, allM, children, ns, hdoc, hall, hch, hval, hns, hany1, hany2, hdoc'⟩ :=
    add_node_ok_inv hp
  obtain ⟨hmapH, hmapI⟩ := get_nodes_none_ok hns
  rw [List.any_eq_false] at hany1 hany2
  constructor
  · intro hmem0
    rw [← hmapH, List.mem_map] at hmem0
    obtain ⟨n', hn', he⟩ := hmem0
    exact hany1 n' hn' (by simp [he])
  · intro hmem0
    rw [← hmapI, List.mem_map] at hmem0
    obtain ⟨n', hn', he⟩ := hmem0
    exact hany2 n' hn' (by simp [he])

/-! # The backup path -/

theorem lastDotSplit_none_no_dot {cs : List Char} (hp : lastDotSplit cs = none) :
    '.' ∉ cs := by
  induction cs with
  | nil => simp
  | cons c rest ih =>
    unfold lastDotSplit at hp
    split at hp
    · cases hp
    · split at hp
      · cases hp
      · rw [List.mem_cons]
        rintro (rfl | hmem)
        · simp_all
        · exact ih (by assumption) hmem

theorem lastDotSplit_spec {cs pre post : List Char} :
    lastDotSplit cs = some (pre, post) → cs = pre ++ '.' :: post ∧ '.' ∉ post := by
  induction cs generalizing pre post with
  | nil => intro hp; cases hp
  | cons c rest ih =>
    intro hp
    unfold lastDotSplit at hp
    cases hsr : lastDotSplit rest with
    | some pr =>
      obtain ⟨s, t⟩ := pr
      rw [hsr] at hp
      simp only [Option.some.injEq, Prod.mk.injEq] at hp
      obtain ⟨rfl, rfl⟩ := hp
      obtain ⟨ih1, ih2⟩ := ih hsr
      constructor
      · rw [List.cons_append, ← ih1]
      · exact ih2
    | none =>
      rw [hsr] at hp
      by_cases hcd : c = '.'
      · simp only [hcd, if_pos rfl, Option.some.injEq, Prod.mk.injEq] at hp
        obtain ⟨rfl, rfl⟩ := hp
        subst hcd
        exact ⟨rfl, lastDotSplit_none_no_dot hsr⟩
      · simp only [if_neg hcd] at hp
        cases hp

theorem append_backup_ne (q : String) : q ++ ".yml.backup" ≠ q := by
  intro he
  have hlen := congrArg String.length he
  simp [String.length_append] at hlen
  exact absurd hlen (by decide)

theorem backupPath_ne (p : String) : backupPath p ≠ p := by
  cases hsplit : lastDotSplit p.toList with
  | none =>
    have hbp : backupPath p = p ++ ".yml.backup" := by
      unfold backupPath withSuffix splitSuffix
      rw [hsplit]
    rw [hbp]
    exact append_backup_ne p
  | some pr =>
    obtain ⟨pre, post⟩ := pr
    obtain ⟨hsp, hnd⟩ := lastDotSplit_spec hsplit
    by_cases hc : pre ≠ [] ∧ post ≠ []
    · have hbp : backupPath p = String.mk pre ++ ".yml.backup" := by
        unfold backupPath withSuffix splitSuffix
        rw [hsplit]
        simp [hc]
      rw [hbp]
      intro he
      have hdata : (String.mk pre ++ ".yml.backup").data = p.data :=
        congrArg String.data he
      rw [String.data_append] at hdata
      rw [show p.data = p.toList from rfl, hsp] at hdata
      have htail : (".yml.backup").data = '.' :: post := List.append_cancel_left hdata
      have hpost : post = "yml.backup".data := by
        have hlit : (".yml.backup").data = '.' :: "yml.backup".data := rfl
        rw [hlit] at htail
        exact (List.cons.injEq _ _ _ _ ▸ htail).2.symm
      rw [hpost] at hnd
      exact hnd (by decide)
    · have hbp : backupPath p = p ++ ".yml.backup" := by
        unfold backupPath withSuffix splitSuffix
        rw [hsplit]
        simp [hc]
      rw [hbp]
      exact append_backup_ne p

/-! # Claims -/

/-- C1 (counterexample): the round trip does not reproduce a
control-plane host.  `to_inventory_dict` never writes the `role` field
and `from_inventory_dict` defaults an absent role to `worker`, so
deserializing the serialized fields of the valid control-plane host
`cpNode` yields the same host with role `worker`, not `cpNode`. -/
theorem C1_role_not_serialized_counterexample :
    cpNode.wellFormed = true ∧
    Node.from_inventory_dict cpNode.hostname cpNode.to_inventory_dict =
      .ok { cpNode with role := "worker" } ∧
    ({ cpNode with role := "worker" } : Node) ≠ cpNode :=
  ⟨by decide, rfl, by decide⟩

/-- C1 (amended): for a valid Host whose role is `worker` and whose
resource hints are not the empty string, deserializing the serialized
storage fields reproduces the host exactly in every field, the
default-valued optional fields included.  (The original claim fails for
role `control-plane`, since the role field is never serialized, and for
empty-string resource hints, which Python truthiness drops.) -/
theorem C1_roundtrip_worker (n : Node) (hwf : n.wellFormed = true)
    (hrole : n.role = "worker") (hrc : n.reserved_cpu ≠ some "")
    (hrm : n.reserved_memory ≠ some "") :
    Node.from_inventory_dict n.hostname n.to_inventory_dict = .ok n :=
  from_to_roundtrip n hwf hrole hrc hrm

/-- C1 (witness): the round trip at the concrete worker host `wNode`. -/
theorem C1_roundtrip_worker_witness :
    Node.from_inventory_dict wNode.hostname wNode.to_inventory_dict = .ok wNode :=
  C1_roundtrip_worker wNode (by decide) (by decide) (by decide) (by decide)

/-- C10: for every hostname and storage-fields mapping with no `role`
key, whenever `from_inventory_dict` succeeds the produced host has role
`worker` — the role silently defaults to `worker` when absent. -/
theorem C10_role_defaults_worker (hostname : String) (data : List (String × Yaml))
    (n : Node) (hrole : alistLookup data "role" = none)
    (hp : Node.from_inventory_dict hostname data = .ok n) :
    n.role = "worker" := by
  rw [from_inventory_dict_ok_iff] at hp
  obtain ⟨ts, a, ip, r, rc, rm, g, lbl, _, _, _, hr, _, _, _, _, hmk⟩ := hp
  have hn := mkNode_ok_inv hmk
  subst hn
  unfold readRole at hr
  rw [hrole] at hr
  injection hr with hr
  exact hr.symm

/-- C10 (witness): parsing a role-less entry yields a worker host. -/
theorem C10_role_defaults_worker_witness :
    (Node.mk "worker-1" "100.64.0.2" "100.64.0.2" "worker" none none false [] []).role
      = "worker" :=
  C10_role_defaults_worker "worker-1"
    [("ansible_host", .str "100.64.0.2"), ("tailscale_ip", .str "100.64.0.2")]
    (Node.mk "worker-1" "100.64.0.2" "100.64.0.2" "worker" none none false [] [])
    rfl rfl

/-- C3 (amended): the host operations — addHost, removeHost, updateHost
and listHosts — validate the document right after reading it: on any
document the Schema Validator rejects they fail with exactly the
validator's `ValidationError` and produce no document to write.
getVars and setVar, however, perform no schema validation (see the
counterexample). -/
theorem C3_host_ops_validate (doc : Yaml) (e : InvErr) (node : Node) (h : String)
    (g : Option String) (hval : validateDoc doc = .error e) :
    add_node doc node = .error e ∧ remove_node doc h = .error e ∧
    update_node doc node = .error e ∧ get_nodes doc g = .error e ∧
    ∃ m, e = .validation m :=
  ⟨add_node_validate_error hval, remove_node_validate_error hval,
   update_node_validate_error hval, get_nodes_validate_error hval,
   validateDoc_error_shape hval⟩

/-- C3 (witness): the host operations all reject the schema-invalid
document that lacks `children`. -/
theorem C3_host_ops_validate_witness :
    add_node (Yaml.map [("all", .map [])]) wNode =
      .error (.validation "all group must have children") ∧
    remove_node (Yaml.map [("all", .map [])]) "worker-1" =
      .error (.validation "all group must have children") ∧
    update_node (Yaml.map [("all", .map [])]) wNode =
      .error (.validation "all group must have children") ∧
    get_nodes (Yaml.map [("all", .map [])]) none =
      .error (.validation "all group must have children") ∧
    ∃ m, InvErr.validation "all group must have children" = .validation m :=
  C3_host_ops_validate (Yaml.map [("all", .map [])])
    (.validation "all group must have children") wNode "worker-1" none rfl

/-- C3 (counterexample): setVar performs no schema validation.  The
document lacking `children` is rejected by the validator, yet
`set_var` on scope `all` succeeds and returns a document to write; the
claim that every public operation validates before mutating is false
for setVar (and getVars). -/
theorem C3_setvar_skips_validation_counterexample :
    validateDoc (Yaml.map [("all", .map [])]) =
      .error (.validation "all group must have children") ∧
    set_var (Yaml.map [("all", .map [])]) "k" (.str "v") "all" =
      .ok (.map [("all", .map [("vars", .map [("k", .str "v")])])]) ∧
    get_vars (Yaml.map [("all", .map [])]) "all" = .ok (.map []) :=
  ⟨rfl, rfl, rfl⟩

/-- C7 (counterexample): the backup is not written to the path with
`.backup` appended.  `write` computes the backup location with
`Path.with_suffix(".yml.backup")`, which replaces the existing
extension: for the inventory path `hosts.yaml` the backup goes to
`hosts.yml.backup`, and nothing is written at `hosts.yaml.backup`. -/
theorem C7_backup_suffix_counterexample :
    backupPath "hosts.yaml" = "hosts.yml.backup" ∧
    backupPath "hosts.yaml" ≠ "hosts.yaml" ++ ".backup" ∧
    alistLookup (writeFile [("hosts.yaml", "old")] "hosts.yaml" "new")
      ("hosts.yaml" ++ ".backup") = none ∧
    alistLookup (writeFile [("hosts.yaml", "old")] "hosts.yaml" "new")
      "hosts.yml.backup" = some "old" :=
  ⟨rfl, by decide, rfl, rfl⟩

/-- C7 (amended): when a file exists at the inventory path, `write`
first copies its contents to `with_suffix(path, ".yml.backup")` —
overwriting any prior backup — and then writes the new content at the
path.  That backup location equals the path with `.backup` appended
exactly when the path ends in `.yml`. -/
theorem C7_backup_before_write (fs : List (String × String)) (path content old : String)
    (hex : alistLookup fs path = some old) :
    alistLookup (writeFile fs path content) (backupPath path) = some old ∧
    alistLookup (writeFile fs path content) path = some content := by
  unfold writeFile
  rw [hex]
  constructor
  · rw [alistLookup_insert_ne _ _ _ _ (fun he => backupPath_ne path he.symm)]
    exact alistLookup_insert_self _ _ _
  · exact alistLookup_insert_self _ _ _

/-- C7 (witness): writing over an existing `hosts.yml` file places the
old contents at `hosts.yml.backup` and the new contents at the path. -/
theorem C7_backup_before_write_witness :
    alistLookup (writeFile [("hosts.yml", "old")] "hosts.yml" "new")
      (backupPath "hosts.yml") = some "old" ∧
    alistLookup (writeFile [("hosts.yml", "old")] "hosts.yml" "new")
      "hosts.yml" = some "new" :=
  C7_backup_before_write [("hosts.yml", "old")] "hosts.yml" "new" "old" rfl

/-- C6: adding a host whose hostname duplicates an existing host fails
with the duplicate-hostname error, and adding one whose tailscale_ip
duplicates an existing host (with a fresh hostname) fails with the
duplicate-address error; a failing call returns no document, so
nothing is written and the host set is unchanged. -/
theorem C6_duplicate_add_fails (doc : Yaml) (ns : List Node) (node : Node)
    (hns : get_nodes doc none = .ok ns) :
    ((∃ n ∈ ns, n.hostname = node.hostname) →
      add_node doc node = .error (.duplicateHostname node.hostname)) ∧
    ((∀ n ∈ ns, n.hostname ≠ node.hostname) →
      (∃ n ∈ ns, n.tailscale_ip = node.tailscale_ip) →
      add_node doc node = .error (.duplicateAddress node.tailscale_ip)) := by
  have hval := get_nodes_ok_validate hns
  constructor
  · rintro ⟨n', hn', he⟩
    have hany : (ns.any fun n => n.hostname = node.hostname) = true := by
      rw [List.any_eq_true]
      exact ⟨n', hn', by simp [he]⟩
    unfold add_node
    rw [hval]
    simp [Bind.bind, Except.bind, hns, hany]
  · rintro hne ⟨n', hn', he⟩
    have hany1 : (ns.any fun n => n.hostname = node.hostname) = false := by
      rw [List.any_eq_false]
      intro x hx
      simp [hne x hx]
    have hany2 : (ns.any fun n => n.tailscale_ip = node.tailscale_ip) = true := by
      rw [List.any_eq_true]
      exact ⟨n', hn', by simp [he]⟩
    unfold add_node
    rw [hval]
    simp [Bind.bind, Except.bind, hns, hany1, hany2]

/-- C6 (witness): on the two-host inventory, re-adding hostname `cp-1`
fails as a duplicate hostname, and adding a fresh hostname with the
already-used address `100.64.0.1` fails as a duplicate address. -/
theorem C6_duplicate_add_fails_witness :
    add_node twoHostDoc
      ⟨"cp-1", "100.64.0.9", "100.64.0.9", "worker", none, none, false, [], []⟩ =
      .error (.duplicateHostname "cp-1") ∧
    add_node twoHostDoc
      ⟨"cp-9", "100.64.0.1", "100.64.0.1", "worker", none, none, false, [], []⟩ =
      .error (.duplicateAddress "100.64.0.1") :=
  ⟨(C6_duplicate_add_fails twoHostDoc
      [⟨"cp-1", "100.64.0.1", "100.64.0.1", "control-plane", none, none, false, [], []⟩,
       ⟨"worker-1", "100.64.0.2", "100.64.0.2", "worker", none, none, false, [], []⟩]
      ⟨"cp-1", "100.64.0.9", "100.64.0.9", "worker", none, none, false, [], []⟩ rfl).1
    ⟨⟨"cp-1", "100.64.0.1", "100.64.0.1", "control-plane", none, none, false, [], []⟩,
     by decide, rfl⟩,
   (C6_duplicate_add_fails twoHostDoc
      [⟨"cp-1", "100.64.0.1", "100.64.0.1", "control-plane", none, none, false, [], []⟩,
       ⟨"worker-1", "100.64.0.2", "100.64.0.2", "worker", none, none, false, [], []⟩]
      ⟨"cp-9", "100.64.0.1", "100.64.0.1", "worker", none, none, false, [], []⟩ rfl).2
    (by decide)
    ⟨⟨"cp-1", "100.64.0.1", "100.64.0.1", "control-plane", none, none, false, [], []⟩,
     by decide, rfl⟩⟩

/-- C9: scoped variables are isolated.  Whenever
`setVar(k, v, "control_plane")` succeeds, the mappings returned by
`getVars("workers")` and `getVars("all")` on the written document are
exactly those of the original document. -/
theorem C9_scope_isolation (doc doc' : Yaml) (k : String) (v : Yaml)
    (hp : set_var doc k v "control_plane" = .ok doc') :
    get_vars doc' "workers" = get_vars doc "workers" ∧
    get_vars doc' "all" = get_vars doc "all" := by
  cases doc
  case map root =>
    simp only [set_var] at hp
    repeat' split at hp
    all_goals try cases hp
    all_goals
      constructor <;>
      simp_all [get_vars, rebuildDoc, alistLookup_insert_self,
        alistLookup_insert_ne _ "all" "workers" _ (by decide),
        alistLookup_insert_ne _ "children" "vars" _ (by decide),
        alistLookup_insert_ne _ "control_plane" "workers" _ (by decide)]
  all_goals cases hp

/-- C9 (witness): setting `cpu` in the control_plane scope of the
two-host inventory leaves the workers-scope and all-scope mappings
unchanged. -/
theorem C9_scope_isolation_witness :
    get_vars (Yaml.map [("all", .map [("children", .map [("control_plane", .map [("hosts", .map [("cp-1", .map [("ansible_host", .str "100.64.0.1"), ("tailscale_ip", .str "100.64.0.1")])]), ("vars", .map [("cpu", .str "4")])]), ("workers", .map [("hosts", .map [("worker-1", .map [("ansible_host", .str "100.64.0.2"), ("tailscale_ip", .str "100.64.0.2")])])])])])]) "workers" =
      get_vars twoHostDoc "workers" ∧
    get_vars (Yaml.map [("all", .map [("children", .map [("control_plane", .map [("hosts", .map [("cp-1", .map [("ansible_host", .str "100.64.0.1"), ("tailscale_ip", .str "100.64.0.1")])]), ("vars", .map [("cpu", .str "4")])]), ("workers", .map [("hosts", .map [("worker-1", .map [("ansible_host", .str "100.64.0.2"), ("tailscale_ip", .str "100.64.0.2")])])])])])]) "all" =
      get_vars twoHostDoc "all" :=
  C9_scope_isolation twoHostDoc _ "cpu" (.str "4") rfl

theorem alistLookup_some_mem {l : List (String × α)} {k : String} {y : α}
    (h : alistLookup l k = some y) : k ∈ alistKeys l := by
  rw [← alistLookup_isSome_iff]
  simp [h]

/-- C4 (amended): variable operations reject a scope other than `all`
whenever it is not a key of the document's `children` mapping — the
check is membership in `children`, not membership in the fixed scope
set.  In particular, on any document whose children are only the two
required groups, every scope outside {all, control_plane, workers} is
rejected with the scope-not-found error before any write, and getVars
rejects it the same way.  (On a document with an extra child group the
original claim fails; see the counterexample.) -/
theorem C4_invalid_scope_rejected (root allM children : List (String × Yaml))
    (k : String) (v : Yaml) (scope : String)
    (hall : alistLookup root "all" = some (.map allM))
    (hch : alistLookup allM "children" = some (.map children))
    (hsub : ∀ g ∈ alistKeys children, g = "control_plane" ∨ g = "workers")
    (hs1 : scope ≠ "all") (hs2 : scope ≠ "control_plane") (hs3 : scope ≠ "workers") :
    set_var (.map root) k v scope = .error (.scopeNotFound scope) ∧
    get_vars (.map root) scope = .error (.scopeNotFound scope) := by
  have hnone : alistLookup children scope = none := by
    cases hl : alistLookup children scope with
    | none => rfl
    | some y =>
      rcases hsub scope (alistLookup_some_mem hl) with h | h
      · exact absurd h hs2
      · exact absurd h hs3
  constructor
  · simp [set_var, hs1, hall, hch, hnone]
  · simp [get_vars, hs1, hall, hch, hnone]

/-- C4 (witness): on the empty inventory, whose children are exactly
the two required groups, scope `staging` is rejected by both setVar and
getVars with no document produced. -/
theorem C4_invalid_scope_rejected_witness :
    set_var emptyDoc "k" (.str "v") "staging" = .error (.scopeNotFound "staging") ∧
    get_vars emptyDoc "staging" = .error (.scopeNotFound "staging") :=
  C4_invalid_scope_rejected
    [("all", .map [("children", .map [("control_plane", .map [("hosts", .map [])]),
      ("workers", .map [("hosts", .map [])])])])]
    [("children", .map [("control_plane", .map [("hosts", .map [])]),
      ("workers", .map [("hosts", .map [])])])]
    [("control_plane", .map [("hosts", .map [])]),
     ("workers", .map [("hosts", .map [])])]
    "k" (.str "v") "staging" rfl rfl (by decide) (by decide) (by decide) (by decide)

/-- C4 (counterexample): the scope check is membership in `children`,
not membership in {all, control_plane, workers}.  On a document whose
children also contain a `staging` group, `set_var` with the
out-of-set scope `staging` succeeds and returns a document to write,
and `get_vars` succeeds as well — refuting the claim as stated, which
quantifies over every document. -/
theorem C4_extra_scope_counterexample :
    set_var (Yaml.map [("all", .map [("children", .map
        [("control_plane", .map [("hosts", .map [])]),
         ("workers", .map [("hosts", .map [])]),
         ("staging", .map [])])])]) "k" (.str "v") "staging" =
      .ok (.map [("all", .map [("children", .map
        [("control_plane", .map [("hosts", .map [])]),
         ("workers", .map [("hosts", .map [])]),
         ("staging", .map [("vars", .map [("k", .str "v")])])])])]) ∧
    get_vars (Yaml.map [("all", .map [("children", .map
        [("control_plane", .map [("hosts", .map [])]),
         ("workers", .map [("hosts", .map [])]),
         ("staging", .map [])])])]) "staging" = .ok (.map []) ∧
    ("staging" ≠ "all" ∧ "staging" ≠ "control_plane" ∧ "staging" ≠ "workers") :=
  ⟨rfl, rfl, by decide⟩

/-- C2 (amended): starting from any document whose stored hostnames and
stored addresses are duplicate-free, a successful addHost or removeHost
preserves both invariants, and a successful updateHost preserves
hostname uniqueness.  updateHost does not re-check address uniqueness
and can introduce a duplicate tailscale_ip (see the counterexample), so
the address invariant is not an invariant of updateHost. -/
theorem C2_uniqueness_preserved (doc : Yaml)
    (hH : (docHostnames doc).Nodup) (hI : (docIPs doc).Nodup) :
    (∀ (node : Node) (doc' : Yaml), add_node doc node = .ok doc' →
      (docHostnames doc').Nodup ∧ (docIPs doc').Nodup) ∧
    (∀ (h : String) (doc' : Yaml), remove_node doc h = .ok doc' →
      (docHostnames doc').Nodup ∧ (docIPs doc').Nodup) ∧
    (∀ (node : Node) (doc' : Yaml), update_node doc node = .ok doc' →
      (docHostnames doc').Nodup) := by
  refine ⟨?_, ?_, ?_⟩
  · intro node doc' hp
    obtain ⟨hfreshH, hfreshI⟩ := add_node_fresh hp
    obtain ⟨root, allM, children, ns, hdoc, hall, hch, hval, hns, _, _, hdoc'⟩ :=
      add_node_ok_inv hp
    have hdH := docHostnames_shape hdoc hall hch
    have hdI := docIPs_shape hdoc hall hch
    rw [hdH] at hH hfreshH
    rw [hdI] at hI hfreshI
    rw [List.nodup_append] at hH hI
    obtain ⟨hHcp, hHw, hHd⟩ := hH
    obtain ⟨hIcp, hIw, hId⟩ := hI
    rw [List.mem_append] at hfreshH hfreshI
    push_neg at hfreshH hfreshI
    subst hdoc'
    rw [docHostnames_rebuild, docIPs_rebuild]
    rcases groupOfRole_cases node.role with htg | htg <;> rw [htg]
    · rw [keys_setHost_not_mem hfreshH.1, ips_setHost_not_mem hfreshH.1,
        hostsOfGroup_setHost_other _ _ _ _
          (by decide : "control_plane" ≠ "workers")]
      exact ⟨nodup_snoc_append hHcp hHw hHd hfreshH.1 hfreshH.2,
             nodup_snoc_append hIcp hIw hId hfreshI.1 hfreshI.2⟩
    · rw [keys_setHost_not_mem hfreshH.2, ips_setHost_not_mem hfreshH.2,
        hostsOfGroup_setHost_other _ _ _ _
          (by decide : "workers" ≠ "control_plane")]
      exact ⟨nodup_append_snoc hHcp hHw hHd hfreshH.1 hfreshH.2,
             nodup_append_snoc hIcp hIw hId hfreshI.1 hfreshI.2⟩
  · intro h doc' hp
    obtain ⟨root, allM, children, hdoc, hall, hch, hval, hcase⟩ := remove_node_ok_inv hp
    have hdH := docHostnames_shape hdoc hall hch
    have hdI := docIPs_shape hdoc hall hch
    rw [hdH] at hH
    rw [hdI] at hI
    rcases hcase with ⟨hfound, hdoc'⟩ | ⟨hnf, hfound, hdoc'⟩ <;> subst hdoc' <;>
      rw [docHostnames_rebuild, docIPs_rebuild, hostsOfGroup_erase_self]
    · rw [hostsOfGroup_erase_other _ _ _ _
        (by decide : "control_plane" ≠ "workers")]
      constructor
      · exact (List.Sublist.append (alistKeys_erase_sublist _ _)
          (List.Sublist.refl _)).nodup hH
      · exact (List.Sublist.append (hostsIPs_erase_sublist _ _)
          (List.Sublist.refl _)).nodup hI
    · rw [hostsOfGroup_erase_other _ _ _ _
        (by decide : "workers" ≠ "control_plane")]
      constructor
      · exact (List.Sublist.append (List.Sublist.refl _)
          (alistKeys_erase_sublist _ _)).nodup hH
      · exact (List.Sublist.append (List.Sublist.refl _)
          (hostsIPs_erase_sublist _ _)).nodup hI
  · intro node doc' hp
    obtain ⟨root, allM, children, hdoc, hall, hch, hval, hcase⟩ := update_node_ok_inv hp
    have hdH := docHostnames_shape hdoc hall hch
    rw [hdH] at hH
    rcases hcase with ⟨hfound, hdoc'⟩ | ⟨hnf, hfound, hdoc'⟩ <;> subst hdoc' <;>
      rw [docHostnames_rebuild]
    · exact (updateInChildren_spec (.inl rfl) hfound hH).2.2.2
    · exact (updateInChildren_spec (.inr rfl) hfound hH).2.2.2

/-- C2 (witness): adding `worker-2` to the two-host inventory yields a
document whose hostnames and addresses are still duplicate-free. -/
theorem C2_uniqueness_preserved_witness :
    (docHostnames (Yaml.map [("all", .map [("children", .map [("control_plane", .map [("hosts", .map [("cp-1", .map [("ansible_host", .str "100.64.0.1"), ("tailscale_ip", .str "100.64.0.1")])])]), ("workers", .map [("hosts", .map [("worker-1", .map [("ansible_host", .str "100.64.0.2"), ("tailscale_ip", .str "100.64.0.2")]), ("worker-2", .map [("ansible_host", .str "100.64.0.3"), ("tailscale_ip", .str "100.64.0.3")])])])])])])).Nodup ∧
    (docIPs (Yaml.map [("all", .map [("children", .map [("control_plane", .map [("hosts", .map [("cp-1", .map [("ansible_host", .str "100.64.0.1"), ("tailscale_ip", .str "100.64.0.1")])])]), ("workers", .map [("hosts", .map [("worker-1", .map [("ansible_host", .str "100.64.0.2"), ("tailscale_ip", .str "100.64.0.2")]), ("worker-2", .map [("ansible_host", .str "100.64.0.3"), ("tailscale_ip", .str "100.64.0.3")])])])])])])).Nodup :=
  (C2_uniqueness_preserved twoHostDoc (by decide) (by decide)).1
    ⟨"worker-2", "100.64.0.3", "100.64.0.3", "worker", none, none, false, [], []⟩
    _ rfl

/-- C2 (counterexample): updateHost does not re-check address
uniqueness.  On the valid two-host inventory, updating `worker-1` (a
well-formed host) to carry the address already used by `cp-1` succeeds,
and the written document stores the address `100.64.0.1` twice —
refuting the claim that every successful mutating operation preserves
tailscale_ip uniqueness. -/
theorem C2_update_duplicate_ip_counterexample :
    (docHostnames twoHostDoc).Nodup ∧ (docIPs twoHostDoc).Nodup ∧
    Node.wellFormed ⟨"worker-1", "100.64.0.2", "100.64.0.1", "worker",
      none, none, false, [], []⟩ = true ∧
    update_node twoHostDoc ⟨"worker-1", "100.64.0.2", "100.64.0.1", "worker",
      none, none, false, [], []⟩ =
      .ok (.map [("all", .map [("children", .map [("control_plane", .map [("hosts", .map [("cp-1", .map [("ansible_host", .str "100.64.0.1"), ("tailscale_ip", .str "100.64.0.1")])])]), ("workers", .map [("hosts", .map [("worker-1", .map [("ansible_host", .str "100.64.0.2"), ("tailscale_ip", .str "100.64.0.1")])])])])])]) ∧
    docIPs (Yaml.map [("all", .map [("children", .map [("control_plane", .map [("hosts", .map [("cp-1", .map [("ansible_host", .str "100.64.0.1"), ("tailscale_ip", .str "100.64.0.1")])])]), ("workers", .map [("hosts", .map [("worker-1", .map [("ansible_host", .str "100.64.0.2"), ("tailscale_ip", .str "100.64.0.1")])])])])])]) = ["100.64.0.1", "100.64.0.1"] ∧
    ¬ (docIPs (Yaml.map [("all", .map [("children", .map [("control_plane", .map [("hosts", .map [("cp-1", .map [("ansible_host", .str "100.64.0.1"), ("tailscale_ip", .str "100.64.0.1")])])]), ("workers", .map [("hosts", .map [("worker-1", .map [("ansible_host", .str "100.64.0.2"), ("tailscale_ip", .str "100.64.0.1")])])])])])])).Nodup :=
  ⟨by decide, by decide, by decide, rfl, rfl, by decide⟩

theorem groupHostnames_rebuild (root allM children : List (String × Yaml)) (g : String) :
    groupHostnames (rebuildDoc root allM children) g =
      alistKeys (hostsOfGroup children g) := by
  simp [groupHostnames, docChildren_rebuild]

theorem alistContains_eq_false_of_not_mem {l : List (String × α)} {k : String}
    (h : k ∉ alistKeys l) : alistContains l k = false := by
  rw [Bool.eq_false_iff]
  intro hc
  exact h ((alistContains_iff _ _).1 hc)

/-- C5: group placement follows role.  A host added with role worker
appears under `workers.hosts` and not under `control_plane.hosts`, and
vice versa for role control-plane; after updateHost (on a document with
unique hostnames) the host appears under exactly the group matching its
new role and not under the other group — the move happens in memory and
the returned document is the single write. -/
theorem C5_group_placement (doc : Yaml) :
    (∀ (node : Node) (doc' : Yaml), add_node doc node = .ok doc' →
      (node.role = "worker" →
        node.hostname ∈ groupHostnames doc' "workers" ∧
        node.hostname ∉ groupHostnames doc' "control_plane") ∧
      (node.role = "control-plane" →
        node.hostname ∈ groupHostnames doc' "control_plane" ∧
        node.hostname ∉ groupHostnames doc' "workers")) ∧
    ((docHostnames doc).Nodup →
      ∀ (node : Node) (doc' : Yaml), update_node doc node = .ok doc' →
      (node.role = "worker" →
        node.hostname ∈ groupHostnames doc' "workers" ∧
        node.hostname ∉ groupHostnames doc' "control_plane") ∧
      (node.role = "control-plane" →
        node.hostname ∈ groupHostnames doc' "control_plane" ∧
        node.hostname ∉ groupHostnames doc' "workers")) := by
  constructor
  · intro node doc' hp
    obtain ⟨hfreshH, _⟩ := add_node_fresh hp
    obtain ⟨root, allM, children, ns, hdoc, hall, hch, hval, hns, _, _, hdoc'⟩ :=
      add_node_ok_inv hp
    have hdH := docHostnames_shape hdoc hall hch
    rw [hdH, List.mem_append] at hfreshH
    push_neg at hfreshH
    subst hdoc'
    constructor
    · intro hrole
      have htg : groupOfRole node.role = "workers" := by simp [groupOfRole, hrole]
      rw [htg, groupHostnames_rebuild, groupHostnames_rebuild]
      constructor
      · rw [hostsOfGroup_setHost_self]
        exact mem_alistKeys_insert_self _ _ _
      · rw [hostsOfGroup_setHost_other _ _ _ _
          (by decide : "workers" ≠ "control_plane")]
        exact hfreshH.1
    · intro hrole
      have htg : groupOfRole node.role = "control_plane" := by simp [groupOfRole, hrole]
      rw [htg, groupHostnames_rebuild, groupHostnames_rebuild]
      constructor
      · rw [hostsOfGroup_setHost_self]
        exact mem_alistKeys_insert_self _ _ _
      · rw [hostsOfGroup_setHost_other _ _ _ _
          (by decide : "control_plane" ≠ "workers")]
        exact hfreshH.2
  · intro hnd node doc' hp
    obtain ⟨root, allM, children, hdoc, hall, hch, hval, hcase⟩ := update_node_ok_inv hp
    have hdH := docHostnames_shape hdoc hall hch
    rw [hdH] at hnd
    rcases hcase with ⟨hfound, hdoc'⟩ | ⟨hnf, hfound, hdoc'⟩ <;> subst hdoc' <;>
      [have hspec := updateInChildren_spec (.inl rfl) hfound hnd;
       have hspec := updateInChildren_spec (.inr rfl) hfound hnd] <;>
    · constructor
      · intro hrole
        have htg : groupOfRole node.role = "workers" := by simp [groupOfRole, hrole]
        rw [groupHostnames_rebuild, groupHostnames_rebuild]
        constructor
        · have hm := hspec.1
          rw [htg] at hm
          exact hm
        · exact hspec.2.2.1 htg
      · intro hrole
        have htg : groupOfRole node.role = "control_plane" := by
          simp [groupOfRole, hrole]
        rw [groupHostnames_rebuild, groupHostnames_rebuild]
        constructor
        · have hm := hspec.1
          rw [htg] at hm
          exact hm
        · exact hspec.2.1 htg

/-- C5 (witness): adding worker `worker-1` to the empty inventory
places it under workers only; updating `worker-1` in the two-host
inventory to role control-plane moves it to control_plane only. -/
theorem C5_group_placement_witness :
    ("worker-1" ∈ groupHostnames (Yaml.map [("all", .map [("children", .map [("control_plane", .map [("hosts", .map [])]), ("workers", .map [("hosts", .map [("worker-1", .map [("ansible_host", .str "100.64.0.2"), ("tailscale_ip", .str "100.64.0.2")])])])])])]) "workers" ∧
     "worker-1" ∉ groupHostnames (Yaml.map [("all", .map [("children", .map [("control_plane", .map [("hosts", .map [])]), ("workers", .map [("hosts", .map [("worker-1", .map [("ansible_host", .str "100.64.0.2"), ("tailscale_ip", .str "100.64.0.2")])])])])])]) "control_plane") ∧
    ("worker-1" ∈ groupHostnames (Yaml.map [("all", .map [("children", .map [("control_plane", .map [("hosts", .map [("cp-1", .map [("ansible_host", .str "100.64.0.1"), ("tailscale_ip", .str "100.64.0.1")]), ("worker-1", .map [("ansible_host", .str "100.64.0.2"), ("tailscale_ip", .str "100.64.0.2")])])]), ("workers", .map [("hosts", .map [])])])])]) "control_plane" ∧
     "worker-1" ∉ groupHostnames (Yaml.map [("all", .map [("children", .map [("control_plane", .map [("hosts", .map [("cp-1", .map [("ansible_host", .str "100.64.0.1"), ("tailscale_ip", .str "100.64.0.1")]), ("worker-1", .map [("ansible_host", .str "100.64.0.2"), ("tailscale_ip", .str "100.64.0.2")])])]), ("workers", .map [("hosts", .map [])])])])]) "workers") :=
  ⟨((C5_group_placement emptyDoc).1 wNode _ rfl).1 rfl,
   ((C5_group_placement twoHostDoc).2 (by decide)
      ⟨"worker-1", "100.64.0.2", "100.64.0.2", "control-plane",
        none, none, false, [], []⟩ _ rfl).2 rfl⟩

/-- C8: removing an existing hostname from a valid document with unique
hostnames succeeds, and removing it again fails with the not-found
error; the failing second call returns no document, so nothing is
written and the host set is unchanged. -/
theorem C8_remove_twice (doc : Yaml) (h : String)
    (hval : validateDoc doc = .ok ())
    (hnd : (docHostnames doc).Nodup)
    (hmem : h ∈ docHostnames doc) :
    ∃ doc', remove_node doc h = .ok doc' ∧
      remove_node doc' h = .error (.notFound h) := by
  obtain ⟨root, allM, children, hdoc, hall, hch, hcp, hw⟩ := validateDoc_ok_inv hval
  have hdH := docHostnames_shape hdoc hall hch
  rw [hdH] at hnd hmem
  rw [List.nodup_append] at hnd
  obtain ⟨hndcp, hndw, hdisj⟩ := hnd
  rw [List.mem_append] at hmem
  subst hdoc
  by_cases hin : groupHasHost children "control_plane" h = true
  · have hstep : remove_node (.map root) h =
        .ok (rebuildDoc root allM (eraseHostFromGroup children "control_plane" h)) := by
      unfold remove_node
      rw [hval]
      simp [Bind.bind, Except.bind, pure, Except.pure, hall, hch, hin]
    refine ⟨_, hstep, ?_⟩
    have hval' := @validate_erase_preserved root allM children "control_plane" h (.inl rfl) hall hch hval
    refine remove_node_notFound rfl (alistLookup_insert_self _ _ _)
      (alistLookup_insert_self _ _ _) hval' ?_ ?_
    · rw [groupHasHost_eq, hostsOfGroup_erase_self]
      exact alistContains_erase_self _ _ hndcp
    · rw [groupHasHost_eq, hostsOfGroup_erase_other _ _ _ _
        (by decide : "control_plane" ≠ "workers")]
      have hmemcp : h ∈ alistKeys (hostsOfGroup children "control_plane") := by
        rw [groupHasHost_eq] at hin
        exact (alistContains_iff _ _).1 hin
      exact alistContains_eq_false_of_not_mem (hdisj hmemcp)
  · have hinF : groupHasHost children "control_plane" h = false :=
      Bool.eq_false_iff.2 hin
    have hinw : groupHasHost children "workers" h = true := by
      rcases hmem with hmcp | hmw
      · exact absurd (by rw [groupHasHost_eq]; exact (alistContains_iff _ _).2 hmcp) hin
      · rw [groupHasHost_eq]
        exact (alistContains_iff _ _).2 hmw
    have hmemw : h ∈ alistKeys (hostsOfGroup children "workers") := by
      rw [groupHasHost_eq] at hinw
      exact (alistContains_iff _ _).1 hinw
    have hstep : remove_node (.map root) h =
        .ok (rebuildDoc root allM (eraseHostFromGroup children "workers" h)) := by
      unfold remove_node
      rw [hval]
      simp [Bind.bind, Except.bind, pure, Except.pure, hall, hch, hinF, hinw]
    refine ⟨_, hstep, ?_⟩
    have hval' := @validate_erase_preserved root allM children "workers" h (.inr rfl) hall hch hval
    refine remove_node_notFound rfl (alistLookup_insert_self _ _ _)
      (alistLookup_insert_self _ _ _) hval' ?_ ?_
    · rw [groupHasHost_eq, hostsOfGroup_erase_other _ _ _ _
        (by decide : "workers" ≠ "control_plane")]
      exact alistContains_eq_false_of_not_mem (fun hc => hdisj hc hmemw)
    · rw [groupHasHost_eq, hostsOfGroup_erase_self]
      exact alistContains_erase_self _ _ hndw

/-- C8 (witness): removing `worker-1` from the two-host inventory
succeeds once and fails with not-found the second time. -/
theorem C8_remove_twice_witness :
    ∃ doc', remove_node twoHostDoc "worker-1" = .ok doc' ∧
      remove_node doc' "worker-1" = .error (.notFound "worker-1") :=
  C8_remove_twice twoHostDoc "worker-1" rfl (by decide) (by decide)

end Kubani
